import Mathlib

/-!
Shallow embedding of the bookWriter layout engine
(`src/packages/core/src/layout/{metrics,line_breaker,paginator,mod}.rs` and the
document data model it consumes), together with theorems settling the frozen
claims about it.

Modelling conventions:
* Rust `f32` values are embedded as exact rationals (`ℚ`); the algorithms only
  add, subtract, multiply and compare.
* Rust `uuid::Uuid` is modelled as `Nat`; each call to `Uuid::new_v4()` draws
  the next value from an ambient stream `gen : Nat → Uuid`, indexed by a draw
  counter threaded through the paginator state.
* Rust `String` text is modelled as `List Char`; `str::split_whitespace` is
  modelled by `splitWS` below.
* The `while !lines.is_empty()` drain loop of `Paginator::add_lines_to_pages`
  is not structurally terminating (and indeed does not terminate for some
  configurations), so the pagination pass takes a fuel argument and returns
  `none` when the fuel is exhausted mid-loop.
-/

namespace BookWriter

/-- Model of `uuid::Uuid`. -/
abbrev Uuid := Nat

/-- `Alignment` from `layout/types.rs`. -/
inductive Alignment
  | Left
  | Center
  | Right
  | Justify
  deriving DecidableEq, Repr

/-- `TextStyle` from `layout/types.rs` (`f32` fields as exact rationals). -/
structure TextStyle where
  fontSize : ℚ
  lineHeight : ℚ
  alignment : Alignment
  deriving DecidableEq, Repr

/-- `TextFragment` from `layout/types.rs`. -/
structure TextFragment where
  text : List Char
  xOffset : ℚ
  style : TextStyle
  sourceBlockId : Uuid
  deriving DecidableEq, Repr

/-- `TextLine` from `layout/types.rs`. -/
structure TextLine where
  yOffset : ℚ
  fragments : List TextFragment
  deriving DecidableEq, Repr

/-- `Rectangle` from `layout/types.rs`. -/
structure Rectangle where
  x : ℚ
  y : ℚ
  width : ℚ
  height : ℚ
  deriving DecidableEq, Repr

/-- `FrameType` from `layout/types.rs`. -/
inductive FrameType
  | ChapterTitle
  | BodyText
  | PageNumber
  deriving DecidableEq, Repr

/-- `TextFrame` from `layout/types.rs`. -/
structure TextFrame where
  id : Uuid
  bounds : Rectangle
  lines : List TextLine
  frameType : FrameType
  deriving DecidableEq, Repr

/-- `PageSide` from `layout/types.rs`. -/
inductive PageSide
  | Left
  | Right
  deriving DecidableEq, Repr

/-- `PageRender` from `layout/types.rs`. -/
structure PageRender where
  pageNumber : Nat
  side : PageSide
  frames : List TextFrame
  deriving DecidableEq, Repr

/-- `RenderMetadata` from `layout/types.rs`. -/
structure RenderMetadata where
  totalPages : Nat
  totalChapters : Nat
  deriving DecidableEq, Repr

/-- `RenderTree` from `layout/types.rs`. -/
structure RenderTree where
  bookId : Uuid
  pages : List PageRender
  metadata : RenderMetadata
  deriving DecidableEq, Repr

/-- `BlockType` as constructed in `bk_format/parser.rs` (`BlockType::Page`). -/
inductive BlockType
  | Page
  deriving DecidableEq, Repr

/-- `Block` as consumed by `Paginator::paginate_block` and constructed in
`bk_format/parser.rs` (id, content, order, block type). -/
structure Block where
  id : Uuid
  content : List Char
  order : Nat
  blockType : BlockType
  deriving DecidableEq, Repr

/-- `Chapter` in the block-oriented shape the paginator walks
(`chapter.title`, `chapter.blocks`); timestamps are opaque naturals. -/
structure Chapter where
  id : Uuid
  title : List Char
  blocks : List Block
  order : Nat
  createdAt : Nat
  updatedAt : Nat
  deriving DecidableEq, Repr

/-- `Book` from `models.rs` (chapters in the block-oriented shape). -/
structure Book where
  id : Uuid
  title : List Char
  author : List Char
  dedication : Option (List Char)
  createdAt : Nat
  updatedAt : Nat
  chapters : List Chapter
  deriving DecidableEq, Repr

/-- `PageSize` from `layout/config.rs`. -/
structure PageSize where
  width : ℚ
  height : ℚ
  deriving DecidableEq, Repr

/-- `Margins` from `layout/config.rs`. -/
structure Margins where
  top : ℚ
  bottom : ℚ
  inner : ℚ
  outer : ℚ
  deriving DecidableEq, Repr

/-- `LayoutConfig` from `layout/config.rs`. -/
structure LayoutConfig where
  pageSize : PageSize
  margins : Margins
  bodyStyle : TextStyle
  chapterTitleStyle : TextStyle
  firstChapterOnOddPage : Bool
  deriving DecidableEq, Repr

/-- The `TextMetrics` trait from `layout/metrics.rs`, as a record of
(deterministic) measurement functions. -/
structure Metrics where
  measureText : List Char → ℚ → ℚ
  measureChar : Char → ℚ → ℚ
  lineHeight : ℚ → ℚ → ℚ

/-- `SimpleTextMetrics` from `layout/metrics.rs` with character-width
factor `r` (the Rust default is `0.6`): text width is
`char_count × font_size × r`, each char measures `font_size × r`, and the
line height is `font_size × multiplier`. -/
def simpleMetrics (r : ℚ) : Metrics where
  measureText := fun t fontSize => (t.length : ℚ) * fontSize * r
  measureChar := fun _ fontSize => fontSize * r
  lineHeight := fun fontSize mult => fontSize * mult

/-- The default metrics used by `layout_book` (`SimpleTextMetrics::default()`,
factor `0.6 = 3/5`). -/
def defaultMetrics : Metrics := simpleMetrics (3 / 5)

/-! ## Line breaker (`layout/line_breaker.rs`) -/

/-- Model of `str::split_whitespace`: accumulator-based splitter discarding
whitespace runs. The accumulator holds the current word reversed. -/
def splitWSAux : List Char → List Char → List (List Char)
  | [], acc => if acc.isEmpty then [] else [acc.reverse]
  | c :: cs, acc =>
    if c.isWhitespace then
      if acc.isEmpty then splitWSAux cs [] else acc.reverse :: splitWSAux cs []
    else
      splitWSAux cs (c :: acc)

/-- `LineBreaker::split_into_words`: split on whitespace runs, keeping only
the words. -/
def splitWS (cs : List Char) : List (List Char) :=
  splitWSAux cs []

/-- Rust `Vec<String>::join(" ")`: words joined with single spaces. -/
def joinWords : List (List Char) → List Char
  | [] => []
  | [w] => w
  | w :: ws => w ++ ' ' :: joinWords ws

/-- `LineBreaker::build_line`: one fragment holding the words joined by single
spaces, at `y_offset = line_index × line_height` and zero x offset. -/
def buildLine (m : Metrics) (words : List (List Char)) (style : TextStyle)
    (sourceId : Uuid) (lineIndex : Nat) : TextLine :=
  let lh := m.lineHeight style.fontSize style.lineHeight
  { yOffset := (lineIndex : ℚ) * lh
    fragments := [{ text := joinWords words
                    xOffset := 0
                    style := style
                    sourceBlockId := sourceId }] }

/-- The word loop of `LineBreaker::break_lines`: greedy fit. `lines` is the
emitted-lines accumulator, `cur` the current line's words, `curW` its
accumulated width, `spaceW` the precomputed width of one space. -/
def breakCore (m : Metrics) (maxW : ℚ) (style : TextStyle) (sourceId : Uuid)
    (spaceW : ℚ) : List (List Char) → List TextLine → List (List Char) → ℚ →
    List TextLine
  | [], lines, cur, _ =>
    if cur.isEmpty then lines
    else lines ++ [buildLine m cur style sourceId lines.length]
  | w :: ws, lines, cur, curW =>
    let wW := m.measureText w style.fontSize
    let widthWith := if cur.isEmpty then wW else curW + spaceW + wW
    if widthWith ≤ maxW then
      breakCore m maxW style sourceId spaceW ws lines (cur ++ [w]) widthWith
    else
      let lines' :=
        if cur.isEmpty then lines
        else lines ++ [buildLine m cur style sourceId lines.length]
      breakCore m maxW style sourceId spaceW ws lines' [w] wW

/-- `LineBreaker::break_lines`. -/
def breakLines (m : Metrics) (maxW : ℚ) (text : List Char) (style : TextStyle)
    (sourceId : Uuid) : List TextLine :=
  if text.isEmpty then []
  else
    let words := splitWS text
    if words.isEmpty then []
    else
      let spaceW := m.measureChar ' ' style.fontSize
      breakCore m maxW style sourceId spaceW words [] [] 0

/-- The concatenated fragment texts of a line (each emitted line holds exactly
one fragment). -/
def lineText (l : TextLine) : List Char :=
  (l.fragments.map TextFragment.text).flatten

/-! ## Paginator (`layout/paginator.rs`) -/

/-- `PageBuilder` from `layout/paginator.rs`. -/
structure PageBuilder where
  frames : List TextFrame
  currentY : ℚ
  maxY : ℚ
  deriving DecidableEq, Repr

/-- `PageBuilder::new`. -/
def PageBuilder.mk0 (maxY : ℚ) : PageBuilder :=
  { frames := [], currentY := 0, maxY := maxY }

/-- `PageBuilder::available_height`. -/
def PageBuilder.availableHeight (pb : PageBuilder) : ℚ :=
  pb.maxY - pb.currentY

/-- `PageBuilder::can_fit`. -/
def PageBuilder.canFit (pb : PageBuilder) (height : ℚ) : Prop :=
  pb.availableHeight ≥ height

instance (pb : PageBuilder) (h : ℚ) : Decidable (pb.canFit h) :=
  inferInstanceAs (Decidable (_ ≤ _))

/-- `PageBuilder::add_frame`. -/
def PageBuilder.addFrame (pb : PageBuilder) (f : TextFrame) (height : ℚ) :
    PageBuilder :=
  { pb with frames := pb.frames ++ [f], currentY := pb.currentY + height }

/-- The paginator's mutable state: the page under construction, the finalized
pages, the 0-based page counter, and the model's uuid draw counter. -/
structure PagState where
  currentPage : PageBuilder
  completedPages : List PageRender
  pageCounter : Nat
  uuidCtr : Nat
  deriving DecidableEq, Repr

/-- Model of `Uuid::new_v4()`: draw the next value from the stream `gen`. -/
def freshUuid (gen : Nat → Uuid) (s : PagState) : Uuid × PagState :=
  (gen s.uuidCtr, { s with uuidCtr := s.uuidCtr + 1 })

/-- `Paginator::calculate_content_height`. -/
def calculateContentHeight (cfg : LayoutConfig) : ℚ :=
  cfg.pageSize.height - cfg.margins.top - cfg.margins.bottom

/-- `Paginator::calculate_content_width`: the binding-side margin is the inner
margin, so a Left page uses the outer margin on its left. -/
def calculateContentWidth (cfg : LayoutConfig) (side : PageSide) : ℚ :=
  let leftMargin := match side with
    | PageSide.Left => cfg.margins.outer
    | PageSide.Right => cfg.margins.inner
  let rightMargin := match side with
    | PageSide.Left => cfg.margins.inner
    | PageSide.Right => cfg.margins.outer
  cfg.pageSize.width - leftMargin - rightMargin

/-- `Paginator::current_page_side`: Left on even 0-based counters. -/
def currentPageSide (s : PagState) : PageSide :=
  if s.pageCounter % 2 = 0 then PageSide.Left else PageSide.Right

/-- `Paginator::new`: fresh state for one layout call. -/
def initState (cfg : LayoutConfig) : PagState :=
  { currentPage := PageBuilder.mk0 (calculateContentHeight cfg)
    completedPages := []
    pageCounter := 0
    uuidCtr := 0 }

/-- `Paginator::finalize_current_page`. -/
def finalizeCurrentPage (cfg : LayoutConfig) (s : PagState) : PagState :=
  let page : PageRender :=
    { pageNumber := s.pageCounter + 1
      side := currentPageSide s
      frames := s.currentPage.frames }
  { s with
    completedPages := s.completedPages ++ [page]
    pageCounter := s.pageCounter + 1
    currentPage := PageBuilder.mk0 (calculateContentHeight cfg) }

/-- `Paginator::calculate_lines_height`. -/
def calculateLinesHeight (m : Metrics) (lines : List TextLine)
    (style : TextStyle) : ℚ :=
  (lines.length : ℚ) * m.lineHeight style.fontSize style.lineHeight

/-- `Paginator::add_chapter_title`. The title's synthetic source id and the
frame id are fresh uuid draws; the content width is computed from the page
side at entry, even if the fit check then forces a new page. -/
def addChapterTitle (cfg : LayoutConfig) (m : Metrics) (gen : Nat → Uuid)
    (title : List Char) (s : PagState) : PagState :=
  let side := currentPageSide s
  let cw := calculateContentWidth cfg side
  let (sourceId, s) := freshUuid gen s
  let lines := breakLines m cw title cfg.chapterTitleStyle sourceId
  if lines.isEmpty then s
  else
    let totalHeight := calculateLinesHeight m lines cfg.chapterTitleStyle
    let heightWithSpacing := totalHeight + cfg.chapterTitleStyle.fontSize
    let s := if s.currentPage.canFit heightWithSpacing then s
             else finalizeCurrentPage cfg s
    let (frameId, s) := freshUuid gen s
    let frame : TextFrame :=
      { id := frameId
        bounds := { x := cfg.margins.inner
                    y := cfg.margins.top + s.currentPage.currentY
                    width := cw
                    height := totalHeight }
        lines := lines
        frameType := FrameType.ChapterTitle }
    { s with currentPage := s.currentPage.addFrame frame heightWithSpacing }

/-- The fit-counting loop at the top of `Paginator::add_lines_to_pages`:
starting from accumulated height `acc` and count `fit`, greedily count how
many of the `n` remaining lines fit in `avail`. Returns the count and the
accumulated height. -/
def countFitAux (avail lh : ℚ) : ℚ → Nat → Nat → Nat × ℚ
  | acc, fit, 0 => (fit, acc)
  | acc, fit, n + 1 =>
    if avail ≥ acc + lh then countFitAux avail lh (acc + lh) (fit + 1) n
    else (fit, acc)

/-- How many of `n` lines of height `lh` fit in `avail`, with their summed
height (mirrors the `lines_that_fit` loop). -/
def countFit (avail lh : ℚ) (n : Nat) : Nat × ℚ :=
  countFitAux avail lh 0 0 n

/-- `Paginator::add_lines_to_pages`: iterative drain-and-continue split of a
block's lines across pages. One unit of fuel per `while` iteration; `none`
models a loop that has not finished within the given fuel. -/
def addLinesToPages (cfg : LayoutConfig) (m : Metrics) (gen : Nat → Uuid) :
    Nat → List TextLine → PagState → Option PagState
  | _, [], s => some s
  | 0, _ :: _, _ => none
  | fuel + 1, line :: rest0, s =>
    let lines := line :: rest0
    let side := currentPageSide s
    let cw := calculateContentWidth cfg side
    let lh := m.lineHeight cfg.bodyStyle.fontSize cfg.bodyStyle.lineHeight
    let fitAcc := countFit s.currentPage.availableHeight lh lines.length
    if fitAcc.1 = 0 then
      addLinesToPages cfg m gen fuel lines (finalizeCurrentPage cfg s)
    else
      let fittingLines := lines.take fitAcc.1
      let (frameId, s) := freshUuid gen s
      let frame : TextFrame :=
        { id := frameId
          bounds := { x := cfg.margins.inner
                      y := cfg.margins.top + s.currentPage.currentY
                      width := cw
                      height := fitAcc.2 }
          lines := fittingLines
          frameType := FrameType.BodyText }
      let s := { s with currentPage := s.currentPage.addFrame frame fitAcc.2 }
      let remaining := lines.drop fitAcc.1
      let s := if remaining.isEmpty then s else finalizeCurrentPage cfg s
      addLinesToPages cfg m gen fuel remaining s

/-- `Paginator::paginate_block`: wrap the block's content with the body style
at the current side's width; skip if no lines, else distribute. -/
def paginateBlock (cfg : LayoutConfig) (m : Metrics) (gen : Nat → Uuid)
    (fuel : Nat) (b : Block) (s : PagState) : Option PagState :=
  let side := currentPageSide s
  let cw := calculateContentWidth cfg side
  let lines := breakLines m cw b.content cfg.bodyStyle b.id
  if lines.isEmpty then some s
  else addLinesToPages cfg m gen fuel lines s

/-- The block loop of `Paginator::paginate_chapter`. -/
def paginateBlocks (cfg : LayoutConfig) (m : Metrics) (gen : Nat → Uuid)
    (fuel : Nat) : List Block → PagState → Option PagState
  | [], s => some s
  | b :: bs, s =>
    (paginateBlock cfg m gen fuel b s).bind (paginateBlocks cfg m gen fuel bs)

/-- `Paginator::paginate_chapter`: title first, then each block in order. -/
def paginateChapter (cfg : LayoutConfig) (m : Metrics) (gen : Nat → Uuid)
    (fuel : Nat) (ch : Chapter) (s : PagState) : Option PagState :=
  paginateBlocks cfg m gen fuel ch.blocks (addChapterTitle cfg m gen ch.title s)

/-- The chapter loop of `Paginator::paginate`, carrying the chapter index:
non-first chapters may force-finalize a Left page when
`first_chapter_on_odd_page` is set. -/
def paginateChapters (cfg : LayoutConfig) (m : Metrics) (gen : Nat → Uuid)
    (fuel : Nat) : List Chapter → Nat → PagState → Option PagState
  | [], _, s => some s
  | ch :: chs, idx, s =>
    let s := if idx > 0 ∧ cfg.firstChapterOnOddPage = true ∧
                s.pageCounter % 2 = 0
             then finalizeCurrentPage cfg s else s
    (paginateChapter cfg m gen fuel ch s).bind
      (paginateChapters cfg m gen fuel chs (idx + 1))

/-- `Paginator::paginate`: walk the chapters, finalize a trailing non-empty
page, and assemble the `RenderTree`. -/
def paginate (cfg : LayoutConfig) (m : Metrics) (gen : Nat → Uuid) (fuel : Nat)
    (book : Book) : Option RenderTree :=
  (paginateChapters cfg m gen fuel book.chapters 0 (initState cfg)).map
    (fun s =>
      let s := if s.currentPage.frames.isEmpty then s
               else finalizeCurrentPage cfg s
      { bookId := book.id
        pages := s.completedPages
        metadata := { totalPages := s.completedPages.length
                      totalChapters := book.chapters.length } })

/-- `layout_book_with_metrics` from `layout/mod.rs`. -/
def layoutBookWithMetrics (book : Book) (cfg : LayoutConfig) (m : Metrics)
    (gen : Nat → Uuid) (fuel : Nat) : Option RenderTree :=
  paginate cfg m gen fuel book

/-- `layout_book` from `layout/mod.rs`: uses the default metrics. -/
def layoutBook (book : Book) (cfg : LayoutConfig) (gen : Nat → Uuid)
    (fuel : Nat) : Option RenderTree :=
  layoutBookWithMetrics book cfg defaultMetrics gen fuel

/-! ## Concrete inputs used by counterexamples and witnesses -/

/-- A uuid stream: the n-th fresh uuid is `n`. -/
def gId : Nat → Uuid := fun n => n

/-- Another uuid stream (a different run of the random generator). -/
def gShift : Nat → Uuid := fun n => n + 50

/-- Character-count metrics with factor 1: a char is as wide as the font
size. -/
def mUnit : Metrics := simpleMetrics 1

/-- Tiny test geometry: 10×10 page, zero margins (usable height 10), 5pt
styles at multiplier 1 (every line is 5 tall, every char 5 wide under
`mUnit`), chapters forced onto odd pages. -/
def cfgA : LayoutConfig :=
  { pageSize := { width := 10, height := 10 }
    margins := { top := 0, bottom := 0, inner := 0, outer := 0 }
    bodyStyle := { fontSize := 5, lineHeight := 1, alignment := Alignment.Left }
    chapterTitleStyle :=
      { fontSize := 5, lineHeight := 1, alignment := Alignment.Left }
    firstChapterOnOddPage := true }

/-- Chapter with given title and blocks and irrelevant metadata. -/
def mkChapter (id : Uuid) (title : List Char) (blocks : List Block) :
    Chapter :=
  { id := id, title := title, blocks := blocks, order := 0,
    createdAt := 0, updatedAt := 0 }

/-- Book with given chapters and irrelevant metadata. -/
def mkBook (chapters : List Chapter) : Book :=
  { id := 99, title := [], author := [], dedication := none,
    createdAt := 0, updatedAt := 0, chapters := chapters }

/-- An empty chapter followed by a chapter whose title (three 3-char words,
each wider than the 10pt line) wraps to 3 lines of total height 15 — taller
than the 10pt usable page. -/
def bookA : Book :=
  mkBook
    [mkChapter 11 [] [],
     mkChapter 12 ['a', 'a', 'a', ' ', 'b', 'b', 'b', ' ', 'c', 'c', 'c'] []]

/-- An empty chapter followed by a chapter whose 1-line title fits its page
exactly. -/
def bookB : Book :=
  mkBook
    [mkChapter 21 [] [],
     mkChapter 22 ['a', 'a'] []]

/-- Geometry whose inner and outer margins together consume the whole page
width: the effective maximum line width is `-2 ≤ 0` on both sides. -/
def cfgW : LayoutConfig :=
  { pageSize := { width := 10, height := 10 }
    margins := { top := 0, bottom := 0, inner := 6, outer := 6 }
    bodyStyle := { fontSize := 5, lineHeight := 1, alignment := Alignment.Left }
    chapterTitleStyle :=
      { fontSize := 5, lineHeight := 1, alignment := Alignment.Left }
    firstChapterOnOddPage := true }

/-- One chapter with a title and one two-word block, for `cfgW`. -/
def bookW : Book :=
  mkBook
    [mkChapter 31 ['a', 'b']
      [{ id := 32, content := ['x', ' ', 'y'], order := 0,
         blockType := BlockType.Page }]]

/-- Geometry whose body line height (20) exceeds the usable page height (10):
the drain loop of `add_lines_to_pages` can never place a line. -/
def cfgH : LayoutConfig :=
  { pageSize := { width := 10, height := 10 }
    margins := { top := 0, bottom := 0, inner := 0, outer := 0 }
    bodyStyle :=
      { fontSize := 20, lineHeight := 1, alignment := Alignment.Left }
    chapterTitleStyle :=
      { fontSize := 5, lineHeight := 1, alignment := Alignment.Left }
    firstChapterOnOddPage := true }

/-- One chapter with an empty title and one single-word block, for `cfgH`. -/
def bookH : Book :=
  mkBook
    [mkChapter 41 []
      [{ id := 42, content := ['h', 'i'], order := 0,
         blockType := BlockType.Page }]]

/-- The block of `bookH`. -/
def blockH : Block :=
  { id := 42, content := ['h', 'i'], order := 0, blockType := BlockType.Page }

/-- The single body line produced for `blockH` under `cfgH`/`mUnit`. -/
def lineH : TextLine :=
  { yOffset := 0
    fragments := [{ text := ['h', 'i'], xOffset := 0, style := cfgH.bodyStyle,
                    sourceBlockId := 42 }] }

/-- The paginator state just before `blockH` is drained under `cfgH`
(fresh page of height 10, one uuid drawn for the empty title). -/
def stateH : PagState :=
  { currentPage := { frames := [], currentY := 0, maxY := 10 }
    completedPages := []
    pageCounter := 0
    uuidCtr := 1 }

/-- Two-word text used to instantiate the line breaker claims. -/
def textC6 : List Char := ['a', 'b', ' ', 'c', 'd']

/-- The single line `break_lines` emits for `textC6` at width 30 under
`simpleMetrics 1` and the 5pt body style of `cfgA`. -/
def lineC6 : TextLine :=
  { yOffset := 0
    fragments := [{ text := ['a', 'b', ' ', 'c', 'd'], xOffset := 0,
                    style := cfgA.bodyStyle, sourceBlockId := 7 }] }

/-- The render tree `paginate` produces for `bookB` under `cfgA`, `mUnit`
and the uuid stream `gId` (forced blank Left page 1, then a Right page
holding chapter 2's one-line title frame). -/
def treeB : RenderTree :=
  { bookId := 99
    pages :=
      [{ pageNumber := 1, side := PageSide.Left, frames := [] },
       { pageNumber := 2
         side := PageSide.Right
         frames :=
           [{ id := 2
              bounds := { x := 0, y := 0, width := 10, height := 5 }
              lines :=
                [{ yOffset := 0
                   fragments :=
                     [{ text := ['a', 'a']
                        xOffset := 0
                        style := { fontSize := 5, lineHeight := 1,
                                   alignment := Alignment.Left }
                        sourceBlockId := 1 }] }]
              frameType := FrameType.ChapterTitle }] }]
    metadata := { totalPages := 2, totalChapters := 2 } }

/-- The paginator state after laying out `bookB`'s first (empty) chapter:
nothing placed, one uuid drawn. -/
def stateB1 : PagState :=
  { currentPage := { frames := [], currentY := 0, maxY := 10 }
    completedPages := []
    pageCounter := 0
    uuidCtr := 1 }

/-- `stateB1` after the forced finalize at the start of `bookB`'s second
chapter: blank page 1 emitted, fresh Right page under construction. -/
def stateB2 : PagState :=
  { currentPage := { frames := [], currentY := 0, maxY := 10 }
    completedPages := [{ pageNumber := 1, side := PageSide.Left, frames := [] }]
    pageCounter := 1
    uuidCtr := 1 }

/-! ## Instrumentation used to state the claims -/

/-- The page side determined by a 0-based page index. -/
def sideOfNat (n : Nat) : PageSide :=
  if n % 2 = 0 then PageSide.Left else PageSide.Right

/-- The text style the paginator lays a frame type out with (`PageNumber`
frames are never produced; they are mapped to the body style). -/
def styleFor (cfg : LayoutConfig) : FrameType → TextStyle
  | FrameType.ChapterTitle => cfg.chapterTitleStyle
  | FrameType.BodyText => cfg.bodyStyle
  | FrameType.PageNumber => cfg.bodyStyle

/-- A frame's recorded height equals the sum of its lines' line-heights
(each line of a frame has the line height of the frame's style). -/
def FrameHeightOk (cfg : LayoutConfig) (m : Metrics) (f : TextFrame) : Prop :=
  f.bounds.height =
    (f.lines.length : ℚ) *
      m.lineHeight (styleFor cfg f.frameType).fontSize
        (styleFor cfg f.frameType).lineHeight

/-- Total height of a list of frames. -/
def framesHeightSum (fs : List TextFrame) : ℚ :=
  (fs.map (fun f => f.bounds.height)).sum

/-- The height the title block of `title` would occupy (lines at the title
style plus one font-size unit of trailing spacing) when wrapped at the
content width of `side`; the fragment source id does not influence it. -/
def titleBlockHeight (cfg : LayoutConfig) (m : Metrics) (side : PageSide)
    (title : List Char) : ℚ :=
  calculateLinesHeight m
    (breakLines m (calculateContentWidth cfg side) title cfg.chapterTitleStyle 0)
    cfg.chapterTitleStyle + cfg.chapterTitleStyle.fontSize

/-- Structural invariant of the paginator state: the page counter tracks the
finalized pages; finalized pages are numbered 1..n in order with sides
alternating from Left; every produced frame sits at the inner margin x and
records the summed line height of its lines; the page under construction has
the configured usable height. -/
structure StInv (cfg : LayoutConfig) (m : Metrics) (s : PagState) : Prop where
  counter_eq : s.pageCounter = s.completedPages.length
  page_num : ∀ (i : Nat) (hi : i < s.completedPages.length),
    (s.completedPages[i]).pageNumber = i + 1
  page_side : ∀ (i : Nat) (hi : i < s.completedPages.length),
    (s.completedPages[i]).side = sideOfNat i
  frames_done : ∀ p ∈ s.completedPages, ∀ f ∈ p.frames,
    f.bounds.x = cfg.margins.inner ∧ FrameHeightOk cfg m f
  frames_cur : ∀ f ∈ s.currentPage.frames,
    f.bounds.x = cfg.margins.inner ∧ FrameHeightOk cfg m f
  maxY_eq : s.currentPage.maxY = calculateContentHeight cfg

/-- Vertical fill invariant: the fill offset stays within `[0, maxY]`, the
frames on the page under construction sum to at most the fill offset, and
every finalized page's frames sum to at most the usable height. -/
structure FillInv (cfg : LayoutConfig) (s : PagState) : Prop where
  maxY_eq : s.currentPage.maxY = calculateContentHeight cfg
  y_nonneg : 0 ≤ s.currentPage.currentY
  y_le : s.currentPage.currentY ≤ s.currentPage.maxY
  sum_cur : framesHeightSum s.currentPage.frames ≤ s.currentPage.currentY
  sum_done : ∀ p ∈ s.completedPages,
    framesHeightSum p.frames ≤ calculateContentHeight cfg

/-- Every chapter title's block (wrapped lines at the title style plus one
font-size unit of spacing) fits within the usable page height, whatever the
page side and fragment source id. -/
def TitleFits (cfg : LayoutConfig) (m : Metrics) (book : Book) : Prop :=
  ∀ ch ∈ book.chapters, ∀ (side : PageSide) (sid : Uuid),
    calculateLinesHeight m
        (breakLines m (calculateContentWidth cfg side) ch.title
          cfg.chapterTitleStyle sid) cfg.chapterTitleStyle +
      cfg.chapterTitleStyle.fontSize ≤ calculateContentHeight cfg

/-- The frame `f` is recorded in the state on a page of side `side`: either
on an already-finalized page of that side, or on the page under construction
whose side (fixed at finalization time by the unchanged counter parity) is
`side`. -/
def HoldsFrame (f : TextFrame) (side : PageSide) (s : PagState) : Prop :=
  (∃ p ∈ s.completedPages, f ∈ p.frames ∧ p.side = side) ∨
  (f ∈ s.currentPage.frames ∧ currentPageSide s = side)

/-! Erasure of the freshly drawn uuids: frame ids, and the synthetic source
ids stamped on chapter-title fragments, are the only data derived from the
uuid stream. -/

/-- Zero out a fragment's source id. -/
def eraseFragId (fr : TextFragment) : TextFragment :=
  { fr with sourceBlockId := 0 }

/-- Zero out the source ids of a line's fragments. -/
def eraseLineIds (l : TextLine) : TextLine :=
  { l with fragments := l.fragments.map eraseFragId }

/-- Zero out a frame's id, and for chapter-title frames (whose source id is a
fresh draw rather than a block id) also its fragments' source ids. -/
def eraseFrameIds (f : TextFrame) : TextFrame :=
  { f with
    id := 0
    lines := match f.frameType with
      | FrameType.ChapterTitle => f.lines.map eraseLineIds
      | _ => f.lines }

/-- Erase the fresh uuids of a page. -/
def erasePageIds (p : PageRender) : PageRender :=
  { p with frames := p.frames.map eraseFrameIds }

/-- Erase the fresh uuids of a render tree. -/
def eraseTreeIds (t : RenderTree) : RenderTree :=
  { t with pages := t.pages.map erasePageIds }

/-- Erase the fresh uuids of a paginator state (draw counter kept). -/
def eraseStIds (s : PagState) : PagState :=
  { s with
    currentPage := { s.currentPage with
                     frames := s.currentPage.frames.map eraseFrameIds }
    completedPages := s.completedPages.map erasePageIds }

/-! ## Theorems -/

/-- Claim C10: some input produces a `RenderTree` containing a page with an
empty frame list: with `first_chapter_on_odd_page` set, an empty Left page
under construction at the start of a non-first chapter is force-finalized and
emitted blank, so consumers cannot assume every page carries a frame. Here
`bookB`'s first (empty) chapter leaves page 1 (Left, even counter 0) without
frames, and chapter 2 forces it out blank; chapter 2's title lands on page 2
(Right). -/
theorem C10_blank_page_exists :
    cfgA.firstChapterOnOddPage = true ∧
    (paginate cfgA mUnit gId 9 bookB).map
        (fun t => t.pages.map (fun p => (p.side, p.frames.length))) =
      some [(PageSide.Left, 0), (PageSide.Right, 1)] := by
  exact ⟨rfl, by with_unfolding_all rfl⟩

/-- Claim C1, counterexample: with `first_chapter_on_odd_page` enabled, the
title frame of a non-first chapter can land on a Left page. In `bookA` the
second chapter's title wraps to 3 lines (height 15 + 5 spacing), which does
not fit the fresh Right page forced for it, so `add_chapter_title` finalizes
again and the title frame is placed on page 3 — a Left page. The first
chapter has an empty title, so the single `ChapterTitle` frame of the tree is
chapter 2's. -/
theorem C1_counterexample :
    cfgA.firstChapterOnOddPage = true ∧
    (paginate cfgA mUnit gId 9 bookA).map
        (fun t => t.pages.map
          (fun p => (p.side, p.frames.map TextFrame.frameType))) =
      some [(PageSide.Left, []), (PageSide.Right, []),
            (PageSide.Left, [FrameType.ChapterTitle])] := by
  exact ⟨rfl, by with_unfolding_all rfl⟩

/-- Claim C2, counterexample: two layout runs on the same `Book`, the same
`LayoutConfig` and the same deterministic `TextMetrics` do not produce
identical `RenderTree`s, because every frame id (and every chapter-title
fragment source id) is a fresh `Uuid::new_v4()` draw: running with uuid
stream `gId` versus stream `gShift` (two draws of the generator) yields
different trees. -/
theorem C2_counterexample :
    paginate cfgA mUnit gId 9 bookB ≠ paginate cfgA mUnit gShift 9 bookB ∧
    (paginate cfgA mUnit gId 9 bookB).bind
        (fun t => (t.pages[1]?).bind (fun p => p.frames.head?.map TextFrame.id)) =
      some 2 ∧
    (paginate cfgA mUnit gShift 9 bookB).bind
        (fun t => (t.pages[1]?).bind (fun p => p.frames.head?.map TextFrame.id)) =
      some 52 := by
  refine ⟨?_, by with_unfolding_all rfl, by with_unfolding_all rfl⟩
  intro h
  have h2 :
      (paginate cfgA mUnit gId 9 bookB).bind
          (fun t => (t.pages[1]?).bind (fun p => p.frames.head?.map TextFrame.id)) =
        (paginate cfgA mUnit gShift 9 bookB).bind
          (fun t => (t.pages[1]?).bind (fun p => p.frames.head?.map TextFrame.id)) :=
    by rw [h]
  rw [show (paginate cfgA mUnit gId 9 bookB).bind
        (fun t => (t.pages[1]?).bind (fun p => p.frames.head?.map TextFrame.id)) =
      some 2 from by with_unfolding_all rfl,
    show (paginate cfgA mUnit gShift 9 bookB).bind
        (fun t => (t.pages[1]?).bind (fun p => p.frames.head?.map TextFrame.id)) =
      some 52 from by with_unfolding_all rfl] at h2
  exact absurd (Option.some.inj h2) (by decide)

/-- Claim C5, counterexample: a frame can exceed the page's available
vertical space at the moment it is appended. In `bookA` the second chapter's
title frame has height 15, but the whole usable page height is only 10 (and
the current fill is never negative here), so no page ever had 15 points of
room; the code places the frame anyway after at most one forced finalize. -/
theorem C5_counterexample :
    (paginate cfgA mUnit gId 9 bookA).bind
        (fun t => (t.pages[2]?).bind (fun p => p.frames.head?.map
          (fun f => f.bounds.height))) = some 15 ∧
    calculateContentHeight cfgA = 10 ∧ ¬ (15 : ℚ) ≤ (10 : ℚ) := by
  refine ⟨by with_unfolding_all rfl, by with_unfolding_all rfl, by norm_num⟩

/-- Claim C3: the code performs no configuration validation at all.
`cfgW`'s margins make the effective maximum line width `≤ 0` on both page
sides, yet `layout_book` (here: `paginate`, which never constructs an error)
runs to completion and returns a complete `RenderTree` instead of failing
synchronously. -/
theorem C3_no_validation :
    calculateContentWidth cfgW PageSide.Left ≤ 0 ∧
    calculateContentWidth cfgW PageSide.Right ≤ 0 ∧
    (paginate cfgW mUnit gId 9 bookW).isSome = true ∧
    (paginate cfgW mUnit gId 9 bookW).map (fun t => t.pages.length) =
      some 2 := by
  refine ⟨by with_unfolding_all decide, by with_unfolding_all decide,
    by with_unfolding_all rfl, by with_unfolding_all rfl⟩

/-- One stuck iteration of the drain loop: when not even one line fits on the
page under construction, the loop just finalizes it and retries with the same
lines on a fresh page. -/
theorem addLines_step_stuck (cfg : LayoutConfig) (m : Metrics)
    (gen : Nat → Uuid) (n : Nat) (l : TextLine) (r : List TextLine)
    (s : PagState)
    (h : (countFit s.currentPage.availableHeight
      (m.lineHeight cfg.bodyStyle.fontSize cfg.bodyStyle.lineHeight)
      (l :: r).length).1 = 0) :
    addLinesToPages cfg m gen (n + 1) (l :: r) s =
      addLinesToPages cfg m gen n (l :: r) (finalizeCurrentPage cfg s) := by
  rw [addLinesToPages]
  simp only [h, if_pos]

/-- Under `cfgH` the body line height (20) exceeds every fresh page's usable
height (10), so the drain loop of `add_lines_to_pages` finalizes page after
page without ever placing the line: it never finishes, whatever the fuel. -/
theorem addLines_stuck_H (fuel : Nat) :
    ∀ s : PagState, s.currentPage.currentY = 0 → s.currentPage.maxY = 10 →
    addLinesToPages cfgH mUnit gId fuel [lineH] s = none := by
  induction fuel with
  | zero => intro s h1 h2; rfl
  | succ n ih =>
    intro s h1 h2
    have hav : s.currentPage.availableHeight = 10 := by
      unfold PageBuilder.availableHeight
      rw [h1, h2]
      norm_num
    have hfit : (countFit s.currentPage.availableHeight
        (mUnit.lineHeight cfgH.bodyStyle.fontSize cfgH.bodyStyle.lineHeight)
        ([lineH].length)).1 = 0 := by
      rw [hav]
      with_unfolding_all rfl
    rw [addLines_step_stuck cfgH mUnit gId n lineH [] s hfit]
    exact ih (finalizeCurrentPage cfgH s) rfl (by with_unfolding_all rfl)

/-- Claim C4: the layout invocation does not always terminate. Under `cfgH`
(body line height 20, usable page height 10) with the one-block book
`bookH`, the pagination pass returns `none` for every fuel: the iterative
drain-and-continue loop finalizes an endless sequence of fresh pages because
not even one line ever fits. -/
theorem C4_nontermination :
    (∀ fuel : Nat, paginate cfgH mUnit gId fuel bookH = none) ∧
    mUnit.lineHeight cfgH.bodyStyle.fontSize cfgH.bodyStyle.lineHeight = 20 ∧
    calculateContentHeight cfgH = 10 := by
  refine ⟨?_, by with_unfolding_all rfl, by with_unfolding_all rfl⟩
  intro fuel
  have h1 : paginateChapters cfgH mUnit gId fuel bookH.chapters 0
      (initState cfgH) =
      ((addLinesToPages cfgH mUnit gId fuel [lineH] stateH).bind
        (paginateBlocks cfgH mUnit gId fuel [])).bind
          (paginateChapters cfgH mUnit gId fuel [] 1) := by
    with_unfolding_all rfl
  have h2 := addLines_stuck_H fuel stateH rfl (by with_unfolding_all rfl)
  have h3 : paginateChapters cfgH mUnit gId fuel bookH.chapters 0
      (initState cfgH) = none := by
    rw [h1, h2]
    rfl
  show (paginateChapters cfgH mUnit gId fuel bookH.chapters 0
      (initState cfgH)).map _ = none
  rw [h3]
  rfl

/-! ### Line breaker lemmas -/

/-- The text of a built line is its words joined with single spaces. -/
theorem lineText_buildLine (m : Metrics) (words : List (List Char))
    (style : TextStyle) (sid : Uuid) (k : Nat) :
    lineText (buildLine m words style sid k) = joinWords words := by
  simp [lineText, buildLine]

/-- Every word produced by the whitespace splitter is nonempty and free of
whitespace characters. -/
theorem splitWSAux_wf (cs : List Char) :
    ∀ acc : List Char, (∀ c ∈ acc, c.isWhitespace = false) →
    ∀ w ∈ splitWSAux cs acc, w ≠ [] ∧ ∀ c ∈ w, c.isWhitespace = false := by
  induction cs with
  | nil =>
    intro acc hacc w hw
    rw [splitWSAux] at hw
    by_cases h : acc.isEmpty
    · simp [h] at hw
    · simp [h] at hw
      subst hw
      constructor
      · simpa [List.isEmpty_iff] using h
      · intro c hc
        exact hacc c (List.mem_reverse.mp hc)
  | cons c cs ih =>
    intro acc hacc w hw
    rw [splitWSAux] at hw
    by_cases hws : c.isWhitespace
    · simp only [hws, if_true] at hw
      by_cases h : acc.isEmpty
      · simp only [h, if_true] at hw
        exact ih [] (by simp) w hw
      · simp only [h, if_false] at hw
        rcases List.mem_cons.mp hw with h1 | h1
        · subst h1
          constructor
          · simpa [List.isEmpty_iff] using h
          · intro x hx
            exact hacc x (List.mem_reverse.mp hx)
        · exact ih [] (by simp) w h1
    · simp only [Bool.not_eq_true] at hws
      simp only [hws, if_false] at hw
      refine ih (c :: acc) ?_ w hw
      intro x hx
      rcases List.mem_cons.mp hx with h1 | h1
      · subst h1; exact hws
      · exact hacc x h1

/-- Words of `splitWS` are nonempty and whitespace-free. -/
theorem splitWS_wf (cs : List Char) :
    ∀ w ∈ splitWS cs, w ≠ [] ∧ ∀ c ∈ w, c.isWhitespace = false :=
  splitWSAux_wf cs [] (by simp)

/-- Joining a nonempty list of words with a nonempty tail inserts exactly one
space between the halves. -/
theorem joinWords_append (g ys : List (List Char)) (hg : g ≠ [])
    (hy : ys ≠ []) :
    joinWords (g ++ ys) = joinWords g ++ ' ' :: joinWords ys := by
  induction g with
  | nil => exact absurd rfl hg
  | cons x g ihg =>
    cases g with
    | nil =>
      cases ys with
      | nil => exact absurd rfl hy
      | cons y ys => simp [joinWords]
    | cons x2 g2 =>
      have h2 : joinWords ((x2 :: g2) ++ ys) =
          joinWords (x2 :: g2) ++ ' ' :: joinWords ys :=
        ihg (by simp)
      calc joinWords ((x :: x2 :: g2) ++ ys)
          = x ++ ' ' :: joinWords ((x2 :: g2) ++ ys) := by simp [joinWords]
        _ = x ++ ' ' :: (joinWords (x2 :: g2) ++ ' ' :: joinWords ys) := by
            rw [h2]
        _ = joinWords (x :: x2 :: g2) ++ ' ' :: joinWords ys := by
            simp [joinWords]

/-- Scanning one whitespace-free word to the end of input flushes the
accumulator and the word as a single emitted word. -/
theorem splitWSAux_last (w : List Char) :
    ∀ acc : List Char, (∀ c ∈ w, c.isWhitespace = false) →
    splitWSAux w acc =
      if (acc.reverse ++ w).isEmpty then [] else [acc.reverse ++ w] := by
  induction w with
  | nil =>
    intro acc _
    rw [splitWSAux]
    by_cases h : acc.isEmpty
    · simp [h, List.isEmpty_iff.mp h]
    · have : acc ≠ [] := by simpa [List.isEmpty_iff] using h
      simp [h, List.isEmpty_iff, this]
  | cons c w ih =>
    intro acc hw
    rw [splitWSAux]
    have hc : c.isWhitespace = false := hw c (by simp)
    simp only [hc, if_false]
    rw [ih (c :: acc) (fun x hx => hw x (List.mem_cons_of_mem c hx))]
    simp

/-- Scanning one whitespace-free word followed by a space emits the
accumulator-plus-word and continues fresh. -/
theorem splitWSAux_word (w rest : List Char) :
    ∀ acc : List Char, (∀ c ∈ w, c.isWhitespace = false) →
    acc.reverse ++ w ≠ [] →
    splitWSAux (w ++ ' ' :: rest) acc =
      (acc.reverse ++ w) :: splitWSAux rest [] := by
  induction w with
  | nil =>
    intro acc _ hne
    rw [List.nil_append, splitWSAux]
    have hacc : acc ≠ [] := by
      intro h
      exact hne (by simp [h])
    have h1 : (' ').isWhitespace = true := by decide
    have h2 : acc.isEmpty = false := by simpa [List.isEmpty_iff] using hacc
    simp [h1, h2]
  | cons c w ih =>
    intro acc hw hne
    have hc : c.isWhitespace = false := hw c (by simp)
    rw [List.cons_append, splitWSAux]
    simp only [hc, if_false]
    rw [ih (c :: acc) (fun x hx => hw x (List.mem_cons_of_mem c hx))
      (by simp)]
    simp

/-- Splitting the single-space join of nonempty, whitespace-free words
recovers exactly those words. -/
theorem splitWS_joinWords (ws : List (List Char))
    (h : ∀ w ∈ ws, w ≠ [] ∧ ∀ c ∈ w, c.isWhitespace = false) :
    splitWS (joinWords ws) = ws := by
  induction ws with
  | nil => rfl
  | cons w ws ih =>
    cases ws with
    | nil =>
      have hw := h w (by simp)
      show splitWSAux (joinWords [w]) [] = [w]
      rw [show joinWords [w] = w from rfl, splitWSAux_last w [] hw.2]
      simp [List.isEmpty_iff, hw.1]
    | cons w2 ws2 =>
      have hw := h w (by simp)
      have hj : joinWords (w :: w2 :: ws2) =
          w ++ ' ' :: joinWords (w2 :: ws2) := by simp [joinWords]
      show splitWS (joinWords (w :: w2 :: ws2)) = w :: w2 :: ws2
      rw [hj]
      show splitWSAux (w ++ ' ' :: joinWords (w2 :: ws2)) [] = w :: w2 :: ws2
      rw [splitWSAux_word w (joinWords (w2 :: ws2)) []
        hw.2 (by simpa using hw.1)]
      simp only [List.reverse_nil, List.nil_append]
      congr 1
      exact ih (fun x hx => h x (List.mem_cons_of_mem w hx))

/-- Joining the per-group joins equals joining the flattened groups, when no
group is empty. -/
theorem joinWords_map_flatten (gs : List (List (List Char)))
    (h : ∀ g ∈ gs, g ≠ []) :
    joinWords (gs.map joinWords) = joinWords gs.flatten := by
  induction gs with
  | nil => rfl
  | cons g gs ih =>
    cases gs with
    | nil => simp [joinWords]
    | cons g2 gs2 =>
      have hg : g ≠ [] := h g (by simp)
      have hflat : (g2 :: gs2).flatten ≠ [] := by
        have hg2 : g2 ≠ [] := h g2 (by simp)
        simp only [List.flatten_cons]
        intro hcontra
        exact hg2 (List.append_eq_nil.mp hcontra).1
      have hmap : joinWords (joinWords g :: (g2 :: gs2).map joinWords) =
          joinWords g ++ ' ' :: joinWords ((g2 :: gs2).map joinWords) := by
        simp [joinWords]
      calc joinWords ((g :: g2 :: gs2).map joinWords)
          = joinWords g ++ ' ' :: joinWords ((g2 :: gs2).map joinWords) := by
            simpa using hmap
        _ = joinWords g ++ ' ' :: joinWords ((g2 :: gs2).flatten) := by
            rw [ih (fun x hx => h x (List.mem_cons_of_mem g hx))]
        _ = joinWords (g ++ (g2 :: gs2).flatten) := by
            rw [joinWords_append g ((g2 :: gs2).flatten) hg hflat]
        _ = joinWords (g :: g2 :: gs2).flatten := by
            simp

/-- The greedy loop partitions its input words, in order, into the nonempty
word groups of the emitted lines. -/
theorem breakCore_partition (m : Metrics) (maxW : ℚ) (style : TextStyle)
    (sid : Uuid) (sw : ℚ) (ws : List (List Char)) :
    ∀ (lines : List TextLine) (cur : List (List Char)) (curW : ℚ),
    ∃ gs : List (List (List Char)),
      (breakCore m maxW style sid sw ws lines cur curW).map lineText =
        lines.map lineText ++ gs.map joinWords ∧
      gs.flatten = cur ++ ws ∧
      ∀ g ∈ gs, g ≠ [] := by
  induction ws with
  | nil =>
    intro lines cur curW
    rw [breakCore]
    by_cases hc : cur.isEmpty
    · refine ⟨[], ?_, ?_, ?_⟩
      · simp [hc]
      · simp [List.isEmpty_iff.mp hc]
      · simp
    · refine ⟨[cur], ?_, ?_, ?_⟩
      · simp [hc, lineText_buildLine]
      · simp
      · simpa [List.isEmpty_iff] using hc
  | cons w ws ih =>
    intro lines cur curW
    rw [breakCore]
    by_cases hfits : (if cur.isEmpty then m.measureText w style.fontSize
        else curW + sw + m.measureText w style.fontSize) ≤ maxW
    · simp only [hfits, if_pos]
      obtain ⟨gs, h1, h2, h3⟩ := ih lines (cur ++ [w])
        (if cur.isEmpty then m.measureText w style.fontSize
         else curW + sw + m.measureText w style.fontSize)
      exact ⟨gs, h1, by simpa using h2, h3⟩
    · simp only [hfits, if_neg, if_false]
      by_cases hc : cur.isEmpty
      · simp only [hc, if_true]
        obtain ⟨gs, h1, h2, h3⟩ := ih lines [w] (m.measureText w style.fontSize)
        exact ⟨gs, h1, by simp [List.isEmpty_iff.mp hc, h2], h3⟩
      · simp only [hc, Bool.false_eq_true, if_false]
        obtain ⟨gs, h1, h2, h3⟩ := ih
          (lines ++ [buildLine m cur style sid lines.length]) [w]
          (m.measureText w style.fontSize)
        refine ⟨cur :: gs, ?_, ?_, ?_⟩
        · rw [h1]
          simp [lineText_buildLine]
        · simp [h2]
        · intro g hg
          rcases List.mem_cons.mp hg with h4 | h4
          · subst h4
            simpa [List.isEmpty_iff] using hc
          · exact h3 g h4

/-- Claim C7: rejoining the fragment texts of the emitted lines, in order,
with single spaces and re-splitting on whitespace reproduces exactly the
whitespace-normalized word sequence of the input (no word lost, duplicated
or reordered); and the line sequence is empty exactly when the input holds
no words (empty or all-whitespace input). This holds for every metrics, max
width, style and source id. -/
theorem C7_rejoin_roundtrip (m : Metrics) (maxW : ℚ) (style : TextStyle)
    (sid : Uuid) (text : List Char) :
    splitWS (joinWords ((breakLines m maxW text style sid).map lineText)) =
      splitWS text ∧
    (breakLines m maxW text style sid = [] ↔ splitWS text = []) := by
  by_cases ht : text.isEmpty = true
  · have h0 : breakLines m maxW text style sid = [] := by
      rw [breakLines]
      simp [ht]
    have ht2 : splitWS text = [] := by
      rw [List.isEmpty_iff.mp ht]
      rfl
    rw [h0, ht2]
    exact ⟨rfl, by simp⟩
  · by_cases hw : (splitWS text).isEmpty = true
    · have h0 : breakLines m maxW text style sid = [] := by
        rw [breakLines]
        simp [ht, hw]
      rw [h0, List.isEmpty_iff.mp hw]
      exact ⟨rfl, by simp⟩
    · have hwne : splitWS text ≠ [] := by simpa [List.isEmpty_iff] using hw
      have hbl : breakLines m maxW text style sid =
          breakCore m maxW style sid (m.measureChar ' ' style.fontSize)
            (splitWS text) [] [] 0 := by
        rw [breakLines]
        simp [ht, hw]
      obtain ⟨gs, h1, h2, h3⟩ := breakCore_partition m maxW style sid
        (m.measureChar ' ' style.fontSize) (splitWS text) [] [] 0
      rw [List.nil_append] at h2
      have hgood : ∀ w ∈ splitWS text,
          w ≠ [] ∧ ∀ c ∈ w, c.isWhitespace = false := splitWS_wf text
      constructor
      · rw [hbl, h1]
        simp only [List.map_nil, List.nil_append]
        rw [joinWords_map_flatten gs h3, h2]
        exact splitWS_joinWords (splitWS text) hgood
      · constructor
        · intro h0
          rw [hbl] at h0
          rw [h0] at h1
          simp only [List.map_nil, List.nil_append] at h1
          have hgs : gs = [] := by
            cases gs with
            | nil => rfl
            | cons g gs2 => simp at h1
          rw [hgs] at h2
          exact h2.symm
        · intro h0
          exact absurd h0 hwne

/-- The greedy loop never emits a line whose measured width exceeds the
budget, provided the measure of a space-join grows additively (one space
width per join) and every single word measures within the budget. -/
theorem breakCore_width (m : Metrics) (maxW : ℚ) (style : TextStyle)
    (sid : Uuid) (sw : ℚ)
    (Hadd : ∀ (ws : List (List Char)) (w : List Char), ws ≠ [] →
      m.measureText (joinWords (ws ++ [w])) style.fontSize =
        m.measureText (joinWords ws) style.fontSize + sw +
          m.measureText w style.fontSize)
    (ws : List (List Char)) :
    ∀ (lines : List TextLine) (cur : List (List Char)) (curW : ℚ),
    (∀ w ∈ ws, m.measureText w style.fontSize ≤ maxW) →
    (cur ≠ [] →
      curW = m.measureText (joinWords cur) style.fontSize ∧ curW ≤ maxW) →
    (∀ l ∈ lines, m.measureText (lineText l) style.fontSize ≤ maxW) →
    ∀ l ∈ breakCore m maxW style sid sw ws lines cur curW,
      m.measureText (lineText l) style.fontSize ≤ maxW := by
  induction ws with
  | nil =>
    intro lines cur curW _ hcur hlines l hl
    rw [breakCore] at hl
    by_cases hc : cur.isEmpty = true
    · simp only [hc, if_true] at hl
      exact hlines l hl
    · have hc' : cur.isEmpty = false := by simpa using hc
      have hcne : cur ≠ [] := by simpa [List.isEmpty_iff] using hc
      simp only [hc', Bool.false_eq_true, if_false] at hl
      rcases List.mem_append.mp hl with h4 | h4
      · exact hlines l h4
      · have h5 : l = buildLine m cur style sid lines.length := by
          simpa using h4
        obtain ⟨hcw, hcwle⟩ := hcur hcne
        rw [h5, lineText_buildLine, ← hcw]
        exact hcwle
  | cons w ws ih =>
    intro lines cur curW hws hcur hlines l hl
    have hws2 : ∀ x ∈ ws, m.measureText x style.fontSize ≤ maxW :=
      fun x hx => hws x (List.mem_cons_of_mem w hx)
    have hwle : m.measureText w style.fontSize ≤ maxW := hws w (by simp)
    rw [breakCore] at hl
    by_cases hc : cur.isEmpty = true
    · have hcur0 : cur = [] := List.isEmpty_iff.mp hc
      simp only [hc, if_true] at hl
      by_cases hfits : m.measureText w style.fontSize ≤ maxW
      · simp only [hfits, if_pos] at hl
        refine ih lines (cur ++ [w]) _ hws2 ?_ hlines l hl
        intro _
        rw [hcur0]
        exact ⟨rfl, hfits⟩
      · exact absurd hwle hfits
    · have hc' : cur.isEmpty = false := by simpa using hc
      have hcne : cur ≠ [] := by simpa [List.isEmpty_iff] using hc
      obtain ⟨hcw, hcwle⟩ := hcur hcne
      simp only [hc', Bool.false_eq_true, if_false] at hl
      by_cases hfits : curW + sw + m.measureText w style.fontSize ≤ maxW
      · simp only [hfits, if_pos] at hl
        refine ih lines (cur ++ [w]) _ hws2 ?_ hlines l hl
        intro _
        constructor
        · rw [Hadd cur w hcne, ← hcw]
        · exact hfits
      · simp only [hfits, if_neg, if_false] at hl
        refine ih (lines ++ [buildLine m cur style sid lines.length]) [w] _
          hws2 ?_ ?_ l hl
        · intro _
          exact ⟨rfl, hwle⟩
        · intro l2 hl2
          rcases List.mem_append.mp hl2 with h4 | h4
          · exact hlines l2 h4
          · have h5 : l2 = buildLine m cur style sid lines.length := by
              simpa using h4
            rw [h5, lineText_buildLine, ← hcw]
            exact hcwle

/-- Claim C6: for every non-empty text and every max width at least the
measured width of every single word of the text, every line emitted by
`break_lines` has measured width at most the max width — for any metrics
whose string measure is additive over single-space joins (one space width
per join), as the character-count metrics family is. -/
theorem C6_line_width_bound (m : Metrics) (maxW : ℚ) (style : TextStyle)
    (sid : Uuid) (text : List Char) (hne : text ≠ [])
    (Hadd : ∀ (ws : List (List Char)) (w : List Char), ws ≠ [] →
      m.measureText (joinWords (ws ++ [w])) style.fontSize =
        m.measureText (joinWords ws) style.fontSize +
          m.measureChar ' ' style.fontSize +
          m.measureText w style.fontSize)
    (Hw : ∀ w ∈ splitWS text, m.measureText w style.fontSize ≤ maxW) :
    ∀ l ∈ breakLines m maxW text style sid,
      m.measureText (lineText l) style.fontSize ≤ maxW := by
  intro l hl
  rw [breakLines] at hl
  have ht : text.isEmpty = false := by simpa [List.isEmpty_iff] using hne
  by_cases hw : (splitWS text).isEmpty = true
  · simp [ht, hw] at hl
  · have hw' : (splitWS text).isEmpty = false := by simpa using hw
    simp only [ht, hw', Bool.false_eq_true, if_false] at hl
    exact breakCore_width m maxW style sid (m.measureChar ' ' style.fontSize)
      Hadd (splitWS text) [] [] 0 Hw (fun h => absurd rfl h) (by simp) l hl

/-- The character-count metrics family measures single-space joins
additively: the join of `ws ++ [w]` is one space longer than `ws`'s join
plus `w`. -/
theorem simpleMetrics_join_add (r fs : ℚ) (ws : List (List Char))
    (w : List Char) (h : ws ≠ []) :
    (simpleMetrics r).measureText (joinWords (ws ++ [w])) fs =
      (simpleMetrics r).measureText (joinWords ws) fs +
        (simpleMetrics r).measureChar ' ' fs +
        (simpleMetrics r).measureText w fs := by
  rw [joinWords_append ws [w] h (by simp)]
  show ((joinWords ws ++ ' ' :: joinWords [w]).length : ℚ) * fs * r = _
  rw [show joinWords [w] = w from rfl]
  simp only [List.length_append, List.length_cons, simpleMetrics]
  push_cast
  ring

/-- Witness for C6: under the character-count metrics with factor 1 and a
5pt style, the text `"ab cd"` at max width 30 (each word measures 10 ≤ 30)
produces the line `"ab cd"`, whose measured width 25 is within the budget. -/
theorem C6_witness :
    lineC6 ∈ breakLines (simpleMetrics 1) 30 textC6 cfgA.bodyStyle 7 ∧
    (simpleMetrics 1).measureText (lineText lineC6) cfgA.bodyStyle.fontSize ≤
      30 := by
  have hmem : lineC6 ∈ breakLines (simpleMetrics 1) 30 textC6 cfgA.bodyStyle 7 := by
    with_unfolding_all decide
  refine ⟨hmem, ?_⟩
  exact C6_line_width_bound (simpleMetrics 1) 30 cfgA.bodyStyle 7 textC6
    (by decide)
    (fun ws w h => simpleMetrics_join_add 1 cfgA.bodyStyle.fontSize ws w h)
    (by with_unfolding_all decide) lineC6 hmem

/-! ### Paginator state invariants -/

/-- Specification of the fit-counting loop: it fits `k ≤ n` lines, the
accumulated height is `k` line-heights, and when at least one line fits the
accumulated height is within the available space. -/
theorem countFitAux_spec (avail lh : ℚ) (n : Nat) :
    ∀ (acc : ℚ) (fit : Nat),
    ∃ k : Nat, countFitAux avail lh acc fit n = (fit + k, acc + k * lh) ∧
      k ≤ n ∧ (1 ≤ k → acc + k * lh ≤ avail) := by
  induction n with
  | zero =>
    intro acc fit
    refine ⟨0, by simp [countFitAux], by omega, fun h => absurd h (by omega)⟩
  | succ n ih =>
    intro acc fit
    rw [countFitAux]
    by_cases hcond : avail ≥ acc + lh
    · simp only [hcond, if_pos]
      obtain ⟨k, h1, h2, h3⟩ := ih (acc + lh) (fit + 1)
      refine ⟨k + 1, ?_, by omega, ?_⟩
      · rw [h1]
        congr 1
        · omega
        · push_cast
          ring
      · intro _
        rcases Nat.eq_zero_or_pos k with hk | hk
        · subst hk
          calc acc + ((0 : Nat) + 1 : Nat) * lh = acc + lh := by
                push_cast
                ring
            _ ≤ avail := hcond
        · have h4 := h3 hk
          calc acc + ((k : Nat) + 1 : Nat) * lh = acc + lh + k * lh := by
                push_cast
                ring
            _ ≤ avail := h4
    · simp only [hcond, if_neg, if_false]
      exact ⟨0, by simp, by omega, fun h => absurd h (by omega)⟩

/-- `countFit` fits `k ≤ n` lines of total height `k·lh`, within the
available space whenever `k ≥ 1`. -/
theorem countFit_spec (avail lh : ℚ) (n : Nat) :
    ∃ k : Nat, countFit avail lh n = (k, k * lh) ∧ k ≤ n ∧
      (1 ≤ k → k * lh ≤ avail) := by
  obtain ⟨k, h1, h2, h3⟩ := countFitAux_spec avail lh n 0 0
  refine ⟨k, ?_, h2, fun hk => ?_⟩
  · rw [countFit, h1]
    simp
  · have := h3 hk
    simpa using this

/-- The structural invariant holds at the start of a layout call. -/
theorem StInv.init_s (cfg : LayoutConfig) (m : Metrics) :
    StInv cfg m (initState cfg) := by
  refine ⟨rfl, ?_, ?_, ?_, ?_, rfl⟩ <;> simp [initState, PageBuilder.mk0]

/-- The structural invariant is insensitive to the uuid draw counter. -/
theorem StInv.uuid_s (cfg : LayoutConfig) (m : Metrics) (s : PagState) (n : Nat)
    (h : StInv cfg m s) : StInv cfg m { s with uuidCtr := n } :=
  ⟨h.counter_eq, h.page_num, h.page_side, h.frames_done, h.frames_cur,
    h.maxY_eq⟩

/-- Finalizing the page under construction preserves the structural
invariant: the new page receives number `counter + 1` and the side of the
current counter parity, and a fresh empty builder is installed. -/
theorem StInv.finalize_s (cfg : LayoutConfig) (m : Metrics) (s : PagState)
    (h : StInv cfg m s) : StInv cfg m (finalizeCurrentPage cfg s) := by
  have hcnt := h.counter_eq
  refine ⟨?_, ?_, ?_, ?_, ?_, ?_⟩
  · simp [finalizeCurrentPage, hcnt]
  · intro i hi
    have hi' : i < s.completedPages.length + 1 := by
      simpa [finalizeCurrentPage] using hi
    show ((s.completedPages ++ [_])[i]).pageNumber = i + 1
    rcases Nat.lt_or_ge i s.completedPages.length with h1 | h1
    · rw [List.getElem_append_left h1]
      exact h.page_num i h1
    · have h2 : i = s.completedPages.length := by omega
      rw [List.getElem_concat_length _ _ _ h2]
      simp [hcnt, h2]
  · intro i hi
    have hi' : i < s.completedPages.length + 1 := by
      simpa [finalizeCurrentPage] using hi
    show ((s.completedPages ++ [_])[i]).side = sideOfNat i
    rcases Nat.lt_or_ge i s.completedPages.length with h1 | h1
    · rw [List.getElem_append_left h1]
      exact h.page_side i h1
    · have h2 : i = s.completedPages.length := by omega
      rw [List.getElem_concat_length _ _ _ h2]
      simp [currentPageSide, sideOfNat, hcnt, h2]
  · intro p hp f hf
    simp only [finalizeCurrentPage] at hp
    rcases List.mem_append.mp hp with h1 | h1
    · exact h.frames_done p h1 f hf
    · have h2 := List.mem_singleton.mp h1
      subst h2
      exact h.frames_cur f hf
  · intro f hf
    simp [finalizeCurrentPage, PageBuilder.mk0] at hf
  · simp [finalizeCurrentPage, PageBuilder.mk0]

/-- Appending a well-formed frame to the page under construction preserves
the structural invariant. -/
theorem StInv.addFrameCur_s (cfg : LayoutConfig) (m : Metrics) (s : PagState)
    (f : TextFrame) (hgt : ℚ) (hx : f.bounds.x = cfg.margins.inner)
    (hh : FrameHeightOk cfg m f) (h : StInv cfg m s) :
    StInv cfg m { s with currentPage := s.currentPage.addFrame f hgt } := by
  refine ⟨h.counter_eq, h.page_num, h.page_side, h.frames_done, ?_, h.maxY_eq⟩
  intro f2 hf2
  simp only [PageBuilder.addFrame] at hf2
  rcases List.mem_append.mp hf2 with h1 | h1
  · exact h.frames_cur f2 h1
  · have h2 : f2 = f := by simpa using h1
    subst h2
    exact ⟨hx, hh⟩

/-- `add_chapter_title` preserves the structural invariant: the title frame
sits at the inner margin and records the summed title line heights. -/
theorem StInv.addTitle_s (cfg : LayoutConfig) (m : Metrics) (gen : Nat → Uuid)
    (title : List Char) (s : PagState) (h : StInv cfg m s) :
    StInv cfg m (addChapterTitle cfg m gen title s) := by
  unfold addChapterTitle
  simp only [freshUuid]
  split
  · exact h.uuid_s cfg m s _
  · split
    · refine ⟨h.counter_eq, h.page_num, h.page_side, h.frames_done, ?_,
        h.maxY_eq⟩
      intro f hf
      rcases List.mem_append.mp hf with h1 | h1
      · exact h.frames_cur f h1
      · have h2 := List.mem_singleton.mp h1
        subst h2
        exact ⟨rfl, rfl⟩
    · have hfin : StInv cfg m
          (finalizeCurrentPage cfg { s with uuidCtr := s.uuidCtr + 1 }) :=
        (h.uuid_s cfg m s _).finalize_s cfg m _
      refine ⟨hfin.counter_eq, hfin.page_num, hfin.page_side,
        hfin.frames_done, ?_, hfin.maxY_eq⟩
      intro f hf
      rcases List.mem_append.mp hf with h1 | h1
      · exact hfin.frames_cur f h1
      · have h2 := List.mem_singleton.mp h1
        subst h2
        exact ⟨rfl, rfl⟩

/-- The drain loop of `add_lines_to_pages` preserves the structural
invariant: every body frame it emits sits at the inner margin and records
`k` body line-heights for its `k` lines. -/
theorem StInv.addLines_s (cfg : LayoutConfig) (m : Metrics) (gen : Nat → Uuid) :
    ∀ (fuel : Nat) (lines : List TextLine) (s s' : PagState),
    StInv cfg m s → addLinesToPages cfg m gen fuel lines s = some s' →
    StInv cfg m s' := by
  intro fuel
  induction fuel with
  | zero =>
    intro lines s s' h hrun
    cases lines with
    | nil =>
      cases hrun
      exact h
    | cons l r => exact absurd hrun (by simp [addLinesToPages])
  | succ n ih =>
    intro lines s s' h hrun
    cases lines with
    | nil =>
      cases hrun
      exact h
    | cons l r =>
      rw [addLinesToPages] at hrun
      obtain ⟨k, hk, hkle, hkfit⟩ := countFit_spec s.currentPage.availableHeight
        (m.lineHeight cfg.bodyStyle.fontSize cfg.bodyStyle.lineHeight)
        (l :: r).length
      rw [hk] at hrun
      by_cases hk0 : k = 0
      · rw [if_pos (by simp [hk0])] at hrun
        exact ih (l :: r) _ s' (h.finalize_s cfg m s) hrun
      · rw [if_neg (by simpa using hk0)] at hrun
        simp only [freshUuid] at hrun
        set sAdd : PagState :=
          { currentPage := s.currentPage.addFrame
              { id := gen s.uuidCtr
                bounds := { x := cfg.margins.inner
                            y := cfg.margins.top + s.currentPage.currentY
                            width := calculateContentWidth cfg
                              (currentPageSide s)
                            height := (k : ℚ) *
                              m.lineHeight cfg.bodyStyle.fontSize
                                cfg.bodyStyle.lineHeight }
                lines := (l :: r).take k
                frameType := FrameType.BodyText }
              ((k : ℚ) * m.lineHeight cfg.bodyStyle.fontSize
                cfg.bodyStyle.lineHeight)
            completedPages := s.completedPages
            pageCounter := s.pageCounter
            uuidCtr := s.uuidCtr + 1 } with hsAdd
      -- hold the invariant for the frame-extended state
        have hInvAdd : StInv cfg m sAdd := by
          rw [hsAdd]
          refine ⟨h.counter_eq, h.page_num, h.page_side, h.frames_done, ?_,
            h.maxY_eq⟩
          intro f hf
          rcases List.mem_append.mp hf with h1 | h1
          · exact h.frames_cur f h1
          · have h2 := List.mem_singleton.mp h1
            subst h2
            refine ⟨rfl, ?_⟩
            show (k : ℚ) * _ = (((l :: r).take k).length : ℚ) * _
            rw [List.length_take]
            congr 2
            omega
        refine ih ((l :: r).drop k) _ s' ?_ hrun
        split
        · exact hInvAdd
        · exact hInvAdd.finalize_s cfg m sAdd

/-- `paginate_block` preserves the structural invariant. -/
theorem StInv.block_s (cfg : LayoutConfig) (m : Metrics) (gen : Nat → Uuid)
    (fuel : Nat) (b : Block) (s s' : PagState) (h : StInv cfg m s)
    (hrun : paginateBlock cfg m gen fuel b s = some s') : StInv cfg m s' := by
  unfold paginateBlock at hrun
  dsimp only at hrun
  split at hrun
  · cases hrun
    exact h
  · exact StInv.addLines_s cfg m gen fuel _ s s' h hrun

/-- The block loop preserves the structural invariant. -/
theorem StInv.blocks_s (cfg : LayoutConfig) (m : Metrics) (gen : Nat → Uuid)
    (fuel : Nat) :
    ∀ (bs : List Block) (s s' : PagState), StInv cfg m s →
    paginateBlocks cfg m gen fuel bs s = some s' → StInv cfg m s' := by
  intro bs
  induction bs with
  | nil =>
    intro s s' h hrun
    cases hrun
    exact h
  | cons b bs ih =>
    intro s s' h hrun
    rw [paginateBlocks] at hrun
    cases hpb : paginateBlock cfg m gen fuel b s with
    | none => rw [hpb] at hrun; exact absurd hrun (by simp)
    | some s1 =>
      rw [hpb] at hrun
      exact ih s1 s' (StInv.block_s cfg m gen fuel b s s1 h hpb) hrun

/-- The chapter loop preserves the structural invariant. -/
theorem StInv.chapters_s (cfg : LayoutConfig) (m : Metrics) (gen : Nat → Uuid)
    (fuel : Nat) :
    ∀ (chs : List Chapter) (idx : Nat) (s s' : PagState), StInv cfg m s →
    paginateChapters cfg m gen fuel chs idx s = some s' → StInv cfg m s' := by
  intro chs
  induction chs with
  | nil =>
    intro idx s s' h hrun
    cases hrun
    exact h
  | cons ch chs ih =>
    intro idx s s' h hrun
    rw [paginateChapters] at hrun
    set s1 : PagState := if idx > 0 ∧ cfg.firstChapterOnOddPage = true ∧
        s.pageCounter % 2 = 0 then finalizeCurrentPage cfg s else s with hs1
    have h1 : StInv cfg m s1 := by
      rw [hs1]
      split
      · exact h.finalize_s cfg m s
      · exact h
    cases hpc : paginateChapter cfg m gen fuel ch s1 with
    | none => rw [hpc] at hrun; exact absurd hrun (by simp)
    | some s2 =>
      rw [hpc] at hrun
      refine ih (idx + 1) s2 s' ?_ hrun
      unfold paginateChapter at hpc
      exact StInv.blocks_s cfg m gen fuel ch.blocks _ s2
        (StInv.addTitle_s cfg m gen ch.title s1 h1) hpc

/-- Every render tree produced by `paginate` is the finalized page list of a
state satisfying the structural invariant, and its page list is that state's
completed pages. -/
theorem paginate_pages_inv (cfg : LayoutConfig) (m : Metrics)
    (gen : Nat → Uuid) (fuel : Nat) (book : Book) (t : RenderTree)
    (hrun : paginate cfg m gen fuel book = some t) :
    ∃ s : PagState, StInv cfg m s ∧ t.pages = s.completedPages := by
  unfold paginate at hrun
  cases hpc : paginateChapters cfg m gen fuel book.chapters 0 (initState cfg)
    with
  | none => rw [hpc] at hrun; exact absurd hrun (by simp)
  | some s =>
    rw [hpc] at hrun
    have hinv : StInv cfg m s :=
      StInv.chapters_s cfg m gen fuel book.chapters 0 (initState cfg) s
        (StInv.init_s cfg m) hpc
    simp only [Option.map_some] at hrun
    have ht := Option.some.inj hrun
    by_cases hemp : s.currentPage.frames.isEmpty = true
    · refine ⟨s, hinv, ?_⟩
      rw [← ht]
      simp [hemp]
    · refine ⟨finalizeCurrentPage cfg s, hinv.finalize_s cfg m s, ?_⟩
      rw [← ht]
      have hemp' : s.currentPage.frames.isEmpty = false := by
        simpa using hemp
      simp [hemp']

/-- Parity characterization of Left pages. -/
theorem sideOfNat_eq_left (i : Nat) :
    sideOfNat i = PageSide.Left ↔ i % 2 = 0 := by
  rcases Nat.mod_two_eq_zero_or_one i with h | h <;> simp [sideOfNat, h]

/-- Parity characterization of Right pages. -/
theorem sideOfNat_eq_right (i : Nat) :
    sideOfNat i = PageSide.Right ↔ i % 2 = 1 := by
  rcases Nat.mod_two_eq_zero_or_one i with h | h <;> simp [sideOfNat, h]

/-- Adjacent 0-based counters map to opposite page sides. -/
theorem sideOfNat_succ_ne (i : Nat) : sideOfNat i ≠ sideOfNat (i + 1) := by
  rcases Nat.mod_two_eq_zero_or_one i with h | h
  · have h2 : (i + 1) % 2 = 1 := by omega
    simp [sideOfNat, h, h2]
  · have h2 : (i + 1) % 2 = 0 := by omega
    simp [sideOfNat, h, h2]

/-- Claim C8: in every produced `RenderTree`, consecutive pages have opposite
sides, pages are numbered `1..n` in order, and a page's side is Left exactly
when `(page_number − 1)` is even and Right exactly when it is odd. -/
theorem C8_side_alternation (cfg : LayoutConfig) (m : Metrics)
    (gen : Nat → Uuid) (fuel : Nat) (book : Book) (t : RenderTree)
    (hrun : paginate cfg m gen fuel book = some t)
    (hlen : 2 ≤ t.pages.length) :
    (∀ (i : Nat) (hi1 : i < t.pages.length) (hi2 : i + 1 < t.pages.length),
      (t.pages[i]).side ≠ (t.pages[i + 1]).side) ∧
    ∀ (i : Nat) (hi : i < t.pages.length),
      (t.pages[i]).pageNumber = i + 1 ∧
      ((t.pages[i]).side = PageSide.Left ↔
        ((t.pages[i]).pageNumber - 1) % 2 = 0) ∧
      ((t.pages[i]).side = PageSide.Right ↔
        ((t.pages[i]).pageNumber - 1) % 2 = 1) := by
  obtain ⟨s, hinv, hpag⟩ := paginate_pages_inv cfg m gen fuel book t hrun
  constructor
  · intro i hi1 hi2
    have e1 : (t.pages[i]).side = sideOfNat i := by
      simp only [hpag] at hi1 ⊢
      exact hinv.page_side i hi1
    have e2 : (t.pages[i + 1]).side = sideOfNat (i + 1) := by
      simp only [hpag] at hi2 ⊢
      exact hinv.page_side (i + 1) hi2
    rw [e1, e2]
    exact sideOfNat_succ_ne i
  · intro i hi
    have e1 : (t.pages[i]).side = sideOfNat i := by
      simp only [hpag] at hi ⊢
      exact hinv.page_side i hi
    have e2 : (t.pages[i]).pageNumber = i + 1 := by
      simp only [hpag] at hi ⊢
      exact hinv.page_num i hi
    refine ⟨e2, ?_, ?_⟩
    · rw [e1, e2]
      simpa using sideOfNat_eq_left i
    · rw [e1, e2]
      simpa using sideOfNat_eq_right i

/-- Witness for C8: the two-page tree of `bookB` has pages numbered 1, 2 with
sides Left then Right. -/
theorem C8_witness :
    paginate cfgA mUnit gId 9 bookB = some treeB ∧ 2 ≤ treeB.pages.length ∧
    (treeB.pages.get ⟨0, by decide⟩).side ≠
      (treeB.pages.get ⟨1, by decide⟩).side ∧
    (treeB.pages.get ⟨0, by decide⟩).pageNumber = 1 := by
  have ht : paginate cfgA mUnit gId 9 bookB = some treeB := by
    with_unfolding_all rfl
  have hlen : 2 ≤ treeB.pages.length := by decide
  have hmain := C8_side_alternation cfgA mUnit gId 9 bookB treeB ht hlen
  exact ⟨ht, hlen, hmain.1 0 (by decide) (by decide),
    (hmain.2 0 (by decide)).1⟩

/-- Claim C9: every frame of every produced page — chapter-title or body,
Left page or Right — has its x position at the configured inner margin, even
though the usable content width of a Left page is computed with the left
margin taken to be the outer margin (and mirrored on Right pages). -/
theorem C9_frames_at_inner_margin (cfg : LayoutConfig) (m : Metrics)
    (gen : Nat → Uuid) (fuel : Nat) (book : Book) (t : RenderTree)
    (hrun : paginate cfg m gen fuel book = some t) :
    (∀ p ∈ t.pages, ∀ f ∈ p.frames, f.bounds.x = cfg.margins.inner) ∧
    calculateContentWidth cfg PageSide.Left =
      cfg.pageSize.width - cfg.margins.outer - cfg.margins.inner ∧
    calculateContentWidth cfg PageSide.Right =
      cfg.pageSize.width - cfg.margins.inner - cfg.margins.outer := by
  obtain ⟨s, hinv, hpag⟩ := paginate_pages_inv cfg m gen fuel book t hrun
  refine ⟨?_, rfl, rfl⟩
  intro p hp f hf
  rw [hpag] at hp
  exact (hinv.frames_done p hp f hf).1

/-- Witness for C9: the single frame of `bookB`'s tree (a title frame on the
Right page 2) sits at x = 0, the inner margin of `cfgA`. -/
theorem C9_witness :
    paginate cfgA mUnit gId 9 bookB = some treeB ∧
    ((treeB.pages.get ⟨1, by decide⟩).frames.get ⟨0, by decide⟩).bounds.x =
      cfgA.margins.inner := by
  have ht : paginate cfgA mUnit gId 9 bookB = some treeB := by
    with_unfolding_all rfl
  refine ⟨ht, ?_⟩
  exact (C9_frames_at_inner_margin cfgA mUnit gId 9 bookB treeB ht).1
    (treeB.pages.get ⟨1, by decide⟩) (List.get_mem _ _ _)
    ((treeB.pages.get ⟨1, by decide⟩).frames.get ⟨0, by decide⟩)
    (List.get_mem _ _ _)

/-! ### Source-id erasure: the line breaker output depends on the source id
only through the stamped fragments -/

/-- Erasing the source id of a built line hides which id it was built with. -/
theorem eraseLine_buildLine (m : Metrics) (w : List (List Char))
    (style : TextStyle) (sid1 sid2 : Uuid) (k : Nat) :
    eraseLineIds (buildLine m w style sid1 k) =
      eraseLineIds (buildLine m w style sid2 k) := by
  simp [buildLine, eraseLineIds, eraseFragId]

/-- The greedy loop commutes with source-id erasure: two runs differing only
in the source id (and in already-emitted erased-equal lines) emit
erased-equal lines. -/
theorem breakCore_erase (m : Metrics) (maxW : ℚ) (style : TextStyle)
    (sid1 sid2 : Uuid) (sw : ℚ) :
    ∀ (ws : List (List Char)) (lines1 lines2 : List TextLine)
      (cur : List (List Char)) (curW : ℚ),
    lines1.map eraseLineIds = lines2.map eraseLineIds →
    (breakCore m maxW style sid1 sw ws lines1 cur curW).map eraseLineIds =
      (breakCore m maxW style sid2 sw ws lines2 cur curW).map eraseLineIds := by
  intro ws
  induction ws with
  | nil =>
    intro lines1 lines2 cur curW hmap
    rw [breakCore, breakCore]
    split
    · exact hmap
    · have hlen : lines1.length = lines2.length := by
        have := congrArg List.length hmap
        simpa using this
      simp only [List.map_append, hmap, List.map_cons, List.map_nil]
      rw [hlen, eraseLine_buildLine m cur style sid1 sid2]
  | cons w ws ih =>
    intro lines1 lines2 cur curW hmap
    rw [breakCore, breakCore]
    have hlen : lines1.length = lines2.length := by
      have := congrArg List.length hmap
      simpa using this
    split
    · split
      · exact ih lines1 lines2 (cur ++ [w]) _ hmap
      · exact ih lines1 lines2 [w] _ hmap
    · split
      · exact ih lines1 lines2 (cur ++ [w]) _ hmap
      · apply ih
        simp only [List.map_append, hmap, List.map_cons, List.map_nil]
        rw [hlen, eraseLine_buildLine m cur style sid1 sid2]

/-- `break_lines` output is independent of the source id up to erasure of the
stamped fragment ids. -/
theorem breakLines_erase (m : Metrics) (maxW : ℚ) (text : List Char)
    (style : TextStyle) (sid1 sid2 : Uuid) :
    (breakLines m maxW text style sid1).map eraseLineIds =
      (breakLines m maxW text style sid2).map eraseLineIds := by
  rw [breakLines, breakLines]
  split
  · rfl
  · dsimp only
    split
    · rfl
    · exact breakCore_erase m maxW style sid1 sid2 _ (splitWS text) [] [] [] 0
        rfl

/-- The number of lines `break_lines` emits does not depend on the source
id. -/
theorem breakLines_length_sid (m : Metrics) (maxW : ℚ) (text : List Char)
    (style : TextStyle) (sid1 sid2 : Uuid) :
    (breakLines m maxW text style sid1).length =
      (breakLines m maxW text style sid2).length := by
  have h := congrArg List.length (breakLines_erase m maxW text style sid1 sid2)
  simpa using h

/-! ### Vertical fill invariant -/

/-- Frame heights over an appended frame. -/
theorem framesHeightSum_append (fs : List TextFrame) (f : TextFrame) :
    framesHeightSum (fs ++ [f]) = framesHeightSum fs + f.bounds.height := by
  simp [framesHeightSum]

/-- The fill invariant holds initially when the usable height is
nonnegative. -/
theorem FillInv.init_f (cfg : LayoutConfig)
    (hch : 0 ≤ calculateContentHeight cfg) : FillInv cfg (initState cfg) := by
  refine ⟨rfl, le_refl 0, ?_, ?_, ?_⟩
  · exact hch
  · simp [initState, PageBuilder.mk0, framesHeightSum]
  · simp [initState]

/-- The fill invariant is insensitive to the uuid draw counter. -/
theorem FillInv.uuid_f (cfg : LayoutConfig) (s : PagState) (n : Nat)
    (h : FillInv cfg s) : FillInv cfg { s with uuidCtr := n } :=
  ⟨h.maxY_eq, h.y_nonneg, h.y_le, h.sum_cur, h.sum_done⟩

/-- Finalizing preserves the fill invariant (given nonnegative usable
height): the finalized page's frames sum to at most the usable height. -/
theorem FillInv.finalize_f (cfg : LayoutConfig) (s : PagState)
    (hch : 0 ≤ calculateContentHeight cfg) (h : FillInv cfg s) :
    FillInv cfg (finalizeCurrentPage cfg s) := by
  refine ⟨?_, le_refl 0, ?_, ?_, ?_⟩
  · simp [finalizeCurrentPage, PageBuilder.mk0]
  · show (0 : ℚ) ≤ calculateContentHeight cfg
    exact hch
  · simp [finalizeCurrentPage, PageBuilder.mk0, framesHeightSum]
  · intro p hp
    simp only [finalizeCurrentPage] at hp
    rcases List.mem_append.mp hp with h1 | h1
    · exact h.sum_done p h1
    · have h2 := List.mem_singleton.mp h1
      subst h2
      calc framesHeightSum s.currentPage.frames ≤ s.currentPage.currentY :=
            h.sum_cur
        _ ≤ s.currentPage.maxY := h.y_le
        _ = calculateContentHeight cfg := h.maxY_eq

/-- `add_chapter_title` preserves the fill invariant when the title style's
quantities are nonnegative and the title block fits within the usable page
height. -/
theorem FillInv.addTitle_f (cfg : LayoutConfig) (m : Metrics) (gen : Nat → Uuid)
    (title : List Char) (s : PagState)
    (hch : 0 ≤ calculateContentHeight cfg)
    (hts : 0 ≤ cfg.chapterTitleStyle.fontSize)
    (htl : 0 ≤ m.lineHeight cfg.chapterTitleStyle.fontSize
      cfg.chapterTitleStyle.lineHeight)
    (hfitT : ∀ (side : PageSide) (sid : Uuid),
      calculateLinesHeight m
          (breakLines m (calculateContentWidth cfg side) title
            cfg.chapterTitleStyle sid) cfg.chapterTitleStyle +
        cfg.chapterTitleStyle.fontSize ≤ calculateContentHeight cfg)
    (h : FillInv cfg s) : FillInv cfg (addChapterTitle cfg m gen title s) := by
  unfold addChapterTitle
  simp only [freshUuid]
  split
  · exact h.uuid_f cfg s _
  · have hth : (0 : ℚ) ≤ calculateLinesHeight m
        (breakLines m (calculateContentWidth cfg (currentPageSide s)) title
          cfg.chapterTitleStyle (gen s.uuidCtr)) cfg.chapterTitleStyle := by
      unfold calculateLinesHeight
      positivity
    split
    · rename_i hcf
      have hcf2 : s.currentPage.availableHeight ≥ _ := hcf
      unfold PageBuilder.availableHeight at hcf2
      refine ⟨h.maxY_eq, ?_, ?_, ?_, h.sum_done⟩
      · show (0 : ℚ) ≤ s.currentPage.currentY + _
        have := h.y_nonneg
        positivity
      · show s.currentPage.currentY + _ ≤ s.currentPage.maxY
        linarith [hcf2]
      · show framesHeightSum (s.currentPage.frames ++ [_]) ≤
          s.currentPage.currentY + _
        rw [framesHeightSum_append]
        have := h.sum_cur
        simp only []
        linarith [h.sum_cur, hts]
    · have hfin : FillInv cfg
          (finalizeCurrentPage cfg { s with uuidCtr := s.uuidCtr + 1 }) :=
        (h.uuid_f cfg s _).finalize_f cfg _ hch
      have hfit2 := hfitT (currentPageSide s) (gen s.uuidCtr)
      refine ⟨hfin.maxY_eq, ?_, ?_, ?_, hfin.sum_done⟩
      · show (0 : ℚ) ≤ (0 : ℚ) + _
        positivity
      · show (0 : ℚ) + _ ≤ calculateContentHeight cfg
        linarith [hfit2]
      · show framesHeightSum ([] ++ [_]) ≤ (0 : ℚ) + _
        rw [framesHeightSum_append]
        simp only [framesHeightSum, List.map_nil, List.sum_nil]
        linarith [hts]

/-- The drain loop preserves the fill invariant when the body line height is
nonnegative: a body frame is only placed when its accumulated height fits
the available space. -/
theorem FillInv.addLines_f (cfg : LayoutConfig) (m : Metrics) (gen : Nat → Uuid)
    (hch : 0 ≤ calculateContentHeight cfg)
    (hbl : 0 ≤ m.lineHeight cfg.bodyStyle.fontSize cfg.bodyStyle.lineHeight) :
    ∀ (fuel : Nat) (lines : List TextLine) (s s' : PagState),
    FillInv cfg s → addLinesToPages cfg m gen fuel lines s = some s' →
    FillInv cfg s' := by
  intro fuel
  induction fuel with
  | zero =>
    intro lines s s' h hrun
    cases lines with
    | nil =>
      cases hrun
      exact h
    | cons l r => exact absurd hrun (by simp [addLinesToPages])
  | succ n ih =>
    intro lines s s' h hrun
    cases lines with
    | nil =>
      cases hrun
      exact h
    | cons l r =>
      rw [addLinesToPages] at hrun
      obtain ⟨k, hk, hkle, hkfit⟩ := countFit_spec s.currentPage.availableHeight
        (m.lineHeight cfg.bodyStyle.fontSize cfg.bodyStyle.lineHeight)
        (l :: r).length
      rw [hk] at hrun
      by_cases hk0 : k = 0
      · rw [if_pos (by simp [hk0])] at hrun
        exact ih (l :: r) _ s' (h.finalize_f cfg s hch) hrun
      · rw [if_neg (by simpa using hk0)] at hrun
        simp only [freshUuid] at hrun
        have hacc : (0 : ℚ) ≤ (k : ℚ) *
            m.lineHeight cfg.bodyStyle.fontSize cfg.bodyStyle.lineHeight := by
          positivity
        have havail := hkfit (by omega)
        unfold PageBuilder.availableHeight at havail
        have hInvAdd : FillInv cfg
            { s with
              currentPage := s.currentPage.addFrame
                ({ id := gen s.uuidCtr
                   bounds := { x := cfg.margins.inner
                               y := cfg.margins.top + s.currentPage.currentY
                               width := calculateContentWidth cfg
                                 (currentPageSide s)
                               height := (k : ℚ) *
                                 m.lineHeight cfg.bodyStyle.fontSize
                                   cfg.bodyStyle.lineHeight }
                   lines := (l :: r).take k
                   frameType := FrameType.BodyText })
                ((k : ℚ) * m.lineHeight cfg.bodyStyle.fontSize
                  cfg.bodyStyle.lineHeight)
              uuidCtr := s.uuidCtr + 1 } := by
          refine ⟨h.maxY_eq, ?_, ?_, ?_, h.sum_done⟩
          · show (0 : ℚ) ≤ s.currentPage.currentY + _
            have := h.y_nonneg
            positivity
          · show s.currentPage.currentY + _ ≤ s.currentPage.maxY
            linarith [havail]
          · show framesHeightSum (s.currentPage.frames ++ [_]) ≤
              s.currentPage.currentY + _
            rw [framesHeightSum_append]
            have := h.sum_cur
            simp only []
            linarith [h.sum_cur]
        refine ih ((l :: r).drop k) _ s' ?_ hrun
        split
        · exact hInvAdd
        · exact hInvAdd.finalize_f cfg _ hch

/-- `paginate_block` preserves the fill invariant. -/
theorem FillInv.block_f (cfg : LayoutConfig) (m : Metrics) (gen : Nat → Uuid)
    (hch : 0 ≤ calculateContentHeight cfg)
    (hbl : 0 ≤ m.lineHeight cfg.bodyStyle.fontSize cfg.bodyStyle.lineHeight)
    (fuel : Nat) (b : Block) (s s' : PagState) (h : FillInv cfg s)
    (hrun : paginateBlock cfg m gen fuel b s = some s') : FillInv cfg s' := by
  unfold paginateBlock at hrun
  dsimp only at hrun
  split at hrun
  · cases hrun
    exact h
  · exact FillInv.addLines_f cfg m gen hch hbl fuel _ s s' h hrun

/-- The block loop preserves the fill invariant. -/
theorem FillInv.blocks_f (cfg : LayoutConfig) (m : Metrics) (gen : Nat → Uuid)
    (hch : 0 ≤ calculateContentHeight cfg)
    (hbl : 0 ≤ m.lineHeight cfg.bodyStyle.fontSize cfg.bodyStyle.lineHeight)
    (fuel : Nat) :
    ∀ (bs : List Block) (s s' : PagState), FillInv cfg s →
    paginateBlocks cfg m gen fuel bs s = some s' → FillInv cfg s' := by
  intro bs
  induction bs with
  | nil =>
    intro s s' h hrun
    cases hrun
    exact h
  | cons b bs ih =>
    intro s s' h hrun
    rw [paginateBlocks] at hrun
    cases hpb : paginateBlock cfg m gen fuel b s with
    | none => rw [hpb] at hrun; exact absurd hrun (by simp)
    | some s1 =>
      rw [hpb] at hrun
      exact ih s1 s' (FillInv.block_f cfg m gen hch hbl fuel b s s1 h hpb) hrun

/-- The chapter loop preserves the fill invariant, given that every
chapter's title block fits within the usable page height. -/
theorem FillInv.chapters_f (cfg : LayoutConfig) (m : Metrics) (gen : Nat → Uuid)
    (hch : 0 ≤ calculateContentHeight cfg)
    (hts : 0 ≤ cfg.chapterTitleStyle.fontSize)
    (htl : 0 ≤ m.lineHeight cfg.chapterTitleStyle.fontSize
      cfg.chapterTitleStyle.lineHeight)
    (hbl : 0 ≤ m.lineHeight cfg.bodyStyle.fontSize cfg.bodyStyle.lineHeight)
    (fuel : Nat) :
    ∀ (chs : List Chapter) (idx : Nat) (s s' : PagState),
    (∀ ch ∈ chs, ∀ (side : PageSide) (sid : Uuid),
      calculateLinesHeight m
          (breakLines m (calculateContentWidth cfg side) ch.title
            cfg.chapterTitleStyle sid) cfg.chapterTitleStyle +
        cfg.chapterTitleStyle.fontSize ≤ calculateContentHeight cfg) →
    FillInv cfg s → paginateChapters cfg m gen fuel chs idx s = some s' →
    FillInv cfg s' := by
  intro chs
  induction chs with
  | nil =>
    intro idx s s' _ h hrun
    cases hrun
    exact h
  | cons ch chs ih =>
    intro idx s s' hfits h hrun
    rw [paginateChapters] at hrun
    set s1 : PagState := if idx > 0 ∧ cfg.firstChapterOnOddPage = true ∧
        s.pageCounter % 2 = 0 then finalizeCurrentPage cfg s else s with hs1
    have h1 : FillInv cfg s1 := by
      rw [hs1]
      split
      · exact h.finalize_f cfg s hch
      · exact h
    cases hpc : paginateChapter cfg m gen fuel ch s1 with
    | none => rw [hpc] at hrun; exact absurd hrun (by simp)
    | some s2 =>
      rw [hpc] at hrun
      refine ih (idx + 1) s2 s'
        (fun c hc => hfits c (List.mem_cons_of_mem ch hc)) ?_ hrun
      unfold paginateChapter at hpc
      exact FillInv.blocks_f cfg m gen hch hbl fuel ch.blocks _ s2
        (FillInv.addTitle_f cfg m gen ch.title s1 hch hts htl
          (hfits ch (by simp)) h1) hpc

/-- Combined extraction: a produced tree's pages are the completed pages of
a state satisfying both the structural and (under the fill hypotheses) the
fill invariant. -/
theorem paginate_pages_inv2 (cfg : LayoutConfig) (m : Metrics)
    (gen : Nat → Uuid) (fuel : Nat) (book : Book) (t : RenderTree)
    (hrun : paginate cfg m gen fuel book = some t)
    (hch : 0 ≤ calculateContentHeight cfg)
    (hts : 0 ≤ cfg.chapterTitleStyle.fontSize)
    (htl : 0 ≤ m.lineHeight cfg.chapterTitleStyle.fontSize
      cfg.chapterTitleStyle.lineHeight)
    (hbl : 0 ≤ m.lineHeight cfg.bodyStyle.fontSize cfg.bodyStyle.lineHeight)
    (hfit : TitleFits cfg m book) :
    ∃ s : PagState, StInv cfg m s ∧ FillInv cfg s ∧
      t.pages = s.completedPages := by
  unfold paginate at hrun
  cases hpc : paginateChapters cfg m gen fuel book.chapters 0 (initState cfg)
    with
  | none => rw [hpc] at hrun; exact absurd hrun (by simp)
  | some s =>
    rw [hpc] at hrun
    have hinv : StInv cfg m s :=
      StInv.chapters_s cfg m gen fuel book.chapters 0 (initState cfg) s
        (StInv.init_s cfg m) hpc
    have hfill : FillInv cfg s :=
      FillInv.chapters_f cfg m gen hch hts htl hbl fuel book.chapters 0
        (initState cfg) s hfit (FillInv.init_f cfg hch) hpc
    simp only [Option.map_some] at hrun
    have ht := Option.some.inj hrun
    by_cases hemp : s.currentPage.frames.isEmpty = true
    · refine ⟨s, hinv, hfill, ?_⟩
      rw [← ht]
      simp [hemp]
    · refine ⟨finalizeCurrentPage cfg s, hinv.finalize_s cfg m s,
        hfill.finalize_f cfg s hch, ?_⟩
      rw [← ht]
      have hemp' : s.currentPage.frames.isEmpty = false := by
        simpa using hemp
      simp [hemp']

/-- Claim C5 (amended): every frame's height equals the sum of its lines'
line-heights at the frame's style, unconditionally — it holds for every
produced tree, with no proviso whatsoever (in particular also for
oversized chapter-title frames such as the counterexample's). Further,
provided the title and body line heights, the title font size and the
usable page height are nonnegative and every chapter's title block (lines
plus one font-size of spacing) fits within the usable page height, the
frames on each produced page sum to at most the usable page height — so no
frame exceeds the space available when it was appended. (Without the
title-fits proviso an oversized chapter-title frame is placed anyway and
overflows, see the counterexample.) -/
theorem C5_frame_heights (cfg : LayoutConfig) (m : Metrics)
    (gen : Nat → Uuid) (fuel : Nat) (book : Book) (t : RenderTree)
    (hrun : paginate cfg m gen fuel book = some t) :
    (∀ p ∈ t.pages, ∀ f ∈ p.frames, FrameHeightOk cfg m f) ∧
    (0 ≤ calculateContentHeight cfg →
     0 ≤ cfg.chapterTitleStyle.fontSize →
     0 ≤ m.lineHeight cfg.chapterTitleStyle.fontSize
        cfg.chapterTitleStyle.lineHeight →
     0 ≤ m.lineHeight cfg.bodyStyle.fontSize cfg.bodyStyle.lineHeight →
     TitleFits cfg m book →
     ∀ p ∈ t.pages, framesHeightSum p.frames ≤
       calculateContentHeight cfg) := by
  constructor
  · obtain ⟨s, hinv, hpag⟩ := paginate_pages_inv cfg m gen fuel book t hrun
    intro p hp f hf
    rw [hpag] at hp
    exact (hinv.frames_done p hp f hf).2
  · intro hch hts htl hbl hfit p hp
    obtain ⟨s, hinv, hfill, hpag⟩ := paginate_pages_inv2 cfg m gen fuel book t
      hrun hch hts htl hbl hfit
    rw [hpag] at hp
    exact hfill.sum_done p hp

/-- Witness for C5: `bookB` under `cfgA` satisfies all the hypotheses (its
titles wrap to at most one 5pt line, and 5 + 5 ≤ 10); its tree's only frame
has height 5 = 1 line × 5, and the frames of each page sum within the usable
height 10. -/
theorem C5_witness :
    paginate cfgA mUnit gId 9 bookB = some treeB ∧
    TitleFits cfgA mUnit bookB ∧
    ((treeB.pages.get ⟨1, by decide⟩).frames.get ⟨0, by decide⟩).bounds.height
      = 5 ∧
    FrameHeightOk cfgA mUnit
      ((treeB.pages.get ⟨1, by decide⟩).frames.get ⟨0, by decide⟩) ∧
    framesHeightSum (treeB.pages.get ⟨1, by decide⟩).frames ≤
      calculateContentHeight cfgA := by
  have ht : paginate cfgA mUnit gId 9 bookB = some treeB := by
    with_unfolding_all rfl
  have hlh : mUnit.lineHeight cfgA.chapterTitleStyle.fontSize
      cfgA.chapterTitleStyle.lineHeight = 5 := by
    with_unfolding_all rfl
  have htf : TitleFits cfgA mUnit bookB := by
    intro ch hch side sid
    have hCH : calculateContentHeight cfgA = 10 := by with_unfolding_all rfl
    have hfs : cfgA.chapterTitleStyle.fontSize = 5 := rfl
    rcases List.mem_cons.mp hch with h1 | h1
    · subst h1
      have hempty : breakLines mUnit (calculateContentWidth cfgA side)
          (mkChapter 21 [] []).title cfgA.chapterTitleStyle sid = [] := by
        rw [breakLines]
        simp [mkChapter]
      rw [hempty, hCH, hfs]
      unfold calculateLinesHeight
      norm_num
    · have h2 := List.mem_singleton.mp h1
      subst h2
      have hlen : (breakLines mUnit (calculateContentWidth cfgA side)
          (mkChapter 22 ['a', 'a'] []).title cfgA.chapterTitleStyle
          sid).length = 1 := by
        rw [breakLines_length_sid mUnit (calculateContentWidth cfgA side) _
          cfgA.chapterTitleStyle sid 0]
        cases side <;> with_unfolding_all rfl
      unfold calculateLinesHeight
      rw [hlen, hCH, hlh, hfs]
      norm_num
  have hmain := C5_frame_heights cfgA mUnit gId 9 bookB treeB ht
  refine ⟨ht, htf, by with_unfolding_all decide, ?_, ?_⟩
  · exact hmain.1 (treeB.pages.get ⟨1, by decide⟩) (List.get_mem _ _ _)
      ((treeB.pages.get ⟨1, by decide⟩).frames.get ⟨0, by decide⟩)
      (List.get_mem _ _ _)
  · exact hmain.2 (by with_unfolding_all decide) (by with_unfolding_all decide)
      (by with_unfolding_all decide) (by with_unfolding_all decide) htf
      (treeB.pages.get ⟨1, by decide⟩) (List.get_mem _ _ _)

/-! ### Frame persistence: a frame recorded in the state survives into the
produced tree on a page whose side is fixed at recording time -/

/-- The chapter loop distributes over list append. -/
theorem paginateChapters_append (cfg : LayoutConfig) (m : Metrics)
    (gen : Nat → Uuid) (fuel : Nat) :
    ∀ (l1 l2 : List Chapter) (idx : Nat) (s : PagState),
    paginateChapters cfg m gen fuel (l1 ++ l2) idx s =
      (paginateChapters cfg m gen fuel l1 idx s).bind
        (paginateChapters cfg m gen fuel l2 (idx + l1.length)) := by
  intro l1
  induction l1 with
  | nil =>
    intro l2 idx s
    simp [paginateChapters]
  | cons ch l1 ih =>
    intro l2 idx s
    rw [List.cons_append, paginateChapters, paginateChapters]
    cases hpc : paginateChapter cfg m gen fuel ch
      (if idx > 0 ∧ cfg.firstChapterOnOddPage = true ∧ s.pageCounter % 2 = 0
       then finalizeCurrentPage cfg s else s) with
    | none => simp
    | some s2 =>
      simp only [Option.bind_some, Option.some_bind]
      rw [ih l2 (idx + 1) s2]
      have he : idx + 1 + l1.length = idx + (l1.length + 1) := by omega
      rw [he]
      rfl

/-- Persistence through a uuid bump. -/
theorem HoldsFrame.uuid_h {f : TextFrame} {side : PageSide} {s : PagState}
    (n : Nat) (h : HoldsFrame f side s) :
    HoldsFrame f side { s with uuidCtr := n } := h

/-- Persistence through finalization: the current page's frames move into
the completed list tagged with the current side. -/
theorem HoldsFrame.finalize_h {f : TextFrame} {side : PageSide}
    (cfg : LayoutConfig) {s : PagState} (h : HoldsFrame f side s) :
    HoldsFrame f side (finalizeCurrentPage cfg s) := by
  rcases h with ⟨p, hp, hf, hs⟩ | ⟨hf, hs⟩
  · exact Or.inl ⟨p, List.mem_append_left _ hp, hf, hs⟩
  · refine Or.inl ⟨({ pageNumber := s.pageCounter + 1,
                      side := currentPageSide s,
                      frames := s.currentPage.frames }), ?_, hf, hs⟩
    exact List.mem_append_right _ (by simp)

/-- Persistence through appending another frame to the current page. -/
theorem HoldsFrame.addFrameCur_h {f : TextFrame} {side : PageSide}
    {s : PagState} (f2 : TextFrame) (hgt : ℚ) (h : HoldsFrame f side s) :
    HoldsFrame f side { s with
      currentPage := s.currentPage.addFrame f2 hgt } := by
  rcases h with ⟨p, hp, hf, hs⟩ | ⟨hf, hs⟩
  · exact Or.inl ⟨p, hp, hf, hs⟩
  · exact Or.inr ⟨List.mem_append_left _ hf, hs⟩

/-- Persistence through `add_chapter_title`. -/
theorem HoldsFrame.addTitle_h {f : TextFrame} {side : PageSide}
    (cfg : LayoutConfig) (m : Metrics) (gen : Nat → Uuid) (title : List Char)
    {s : PagState} (h : HoldsFrame f side s) :
    HoldsFrame f side (addChapterTitle cfg m gen title s) := by
  unfold addChapterTitle
  simp only [freshUuid]
  split
  · exact h.uuid_h _
  · split
    · exact ((h.uuid_h _).uuid_h _).addFrameCur_h _ _
    · exact (((h.uuid_h _).finalize_h cfg).uuid_h _).addFrameCur_h _ _

/-- Persistence through the drain loop. -/
theorem HoldsFrame.addLines_h {f : TextFrame} {side : PageSide}
    (cfg : LayoutConfig) (m : Metrics) (gen : Nat → Uuid) :
    ∀ (fuel : Nat) (lines : List TextLine) (s s' : PagState),
    HoldsFrame f side s → addLinesToPages cfg m gen fuel lines s = some s' →
    HoldsFrame f side s' := by
  intro fuel
  induction fuel with
  | zero =>
    intro lines s s' h hrun
    cases lines with
    | nil => cases hrun; exact h
    | cons l r => exact absurd hrun (by simp [addLinesToPages])
  | succ n ih =>
    intro lines s s' h hrun
    cases lines with
    | nil => cases hrun; exact h
    | cons l r =>
      rw [addLinesToPages] at hrun
      split at hrun
      · exact ih (l :: r) _ s' (h.finalize_h cfg) hrun
      · simp only [freshUuid] at hrun
        refine ih _ _ s' ?_ hrun
        split
        · exact ((h.uuid_h _).addFrameCur_h _ _)
        · exact ((h.uuid_h _).addFrameCur_h _ _).finalize_h cfg

/-- Persistence through `paginate_block`. -/
theorem HoldsFrame.block_h {f : TextFrame} {side : PageSide}
    (cfg : LayoutConfig) (m : Metrics) (gen : Nat → Uuid) (fuel : Nat)
    (b : Block) (s s' : PagState) (h : HoldsFrame f side s)
    (hrun : paginateBlock cfg m gen fuel b s = some s') :
    HoldsFrame f side s' := by
  unfold paginateBlock at hrun
  dsimp only at hrun
  split at hrun
  · cases hrun; exact h
  · exact HoldsFrame.addLines_h cfg m gen fuel _ s s' h hrun

/-- Persistence through the block loop. -/
theorem HoldsFrame.blocks_h {f : TextFrame} {side : PageSide}
    (cfg : LayoutConfig) (m : Metrics) (gen : Nat → Uuid) (fuel : Nat) :
    ∀ (bs : List Block) (s s' : PagState), HoldsFrame f side s →
    paginateBlocks cfg m gen fuel bs s = some s' → HoldsFrame f side s' := by
  intro bs
  induction bs with
  | nil => intro s s' h hrun; cases hrun; exact h
  | cons b bs ih =>
    intro s s' h hrun
    rw [paginateBlocks] at hrun
    cases hpb : paginateBlock cfg m gen fuel b s with
    | none => rw [hpb] at hrun; exact absurd hrun (by simp)
    | some s1 =>
      rw [hpb] at hrun
      exact ih s1 s' (HoldsFrame.block_h cfg m gen fuel b s s1 h hpb) hrun

/-- Persistence through the chapter loop. -/
theorem HoldsFrame.chapters_h {f : TextFrame} {side : PageSide}
    (cfg : LayoutConfig) (m : Metrics) (gen : Nat → Uuid) (fuel : Nat) :
    ∀ (chs : List Chapter) (idx : Nat) (s s' : PagState), HoldsFrame f side s →
    paginateChapters cfg m gen fuel chs idx s = some s' →
    HoldsFrame f side s' := by
  intro chs
  induction chs with
  | nil => intro idx s s' h hrun; cases hrun; exact h
  | cons ch chs ih =>
    intro idx s s' h hrun
    rw [paginateChapters] at hrun
    set s1 : PagState := if idx > 0 ∧ cfg.firstChapterOnOddPage = true ∧
        s.pageCounter % 2 = 0 then finalizeCurrentPage cfg s else s with hs1
    have h1 : HoldsFrame f side s1 := by
      rw [hs1]
      split
      · exact h.finalize_h cfg
      · exact h
    cases hpc : paginateChapter cfg m gen fuel ch s1 with
    | none => rw [hpc] at hrun; exact absurd hrun (by simp)
    | some s2 =>
      rw [hpc] at hrun
      refine ih (idx + 1) s2 s' ?_ hrun
      unfold paginateChapter at hpc
      exact HoldsFrame.blocks_h cfg m gen fuel ch.blocks _ s2
        (h1.addTitle_h cfg m gen ch.title) hpc

/-- A frame held by the state at the end of the chapter walk appears in the
produced tree on a page of the recorded side. -/
theorem HoldsFrame.out {f : TextFrame} {side : PageSide} (cfg : LayoutConfig)
    {s : PagState} (t : RenderTree) (h : HoldsFrame f side s)
    (hpages : t.pages = (if s.currentPage.frames.isEmpty = true then s
      else finalizeCurrentPage cfg s).completedPages) :
    ∃ p ∈ t.pages, p.side = side ∧ f ∈ p.frames := by
  rcases h with ⟨p, hp, hf, hs⟩ | ⟨hf, hs⟩
  · refine ⟨p, ?_, hs, hf⟩
    rw [hpages]
    split
    · exact hp
    · exact List.mem_append_left _ hp
  · have hne : s.currentPage.frames.isEmpty = false := by
      cases hcc : s.currentPage.frames with
      | nil =>
        rw [hcc] at hf
        simp at hf
      | cons a l => rfl
    rw [hpages, if_neg (by simp [hne])]
    refine ⟨({ pageNumber := s.pageCounter + 1,
               side := currentPageSide s,
               frames := s.currentPage.frames }), ?_, hs, hf⟩
    exact List.mem_append_right _ (by simp)

/-- Claim C1 (amended): with `first_chapter_on_odd_page` enabled, every
chapter after the first begins layout on a Right page, and its title frame
lands on a Right page of the produced tree provided the title block (lines
plus one font-size of spacing) fits in the space remaining on that Right
page; if it does not fit, the frame is placed at the top of the following
(Left) page instead (see the counterexample). Here `s` is the state after
the first `i` chapters and `s1` the state after the forced finalize. -/
theorem C1_nonfirst_title_on_right (cfg : LayoutConfig) (m : Metrics)
    (gen : Nat → Uuid) (fuel : Nat) (book : Book) (t : RenderTree) (i : Nat)
    (ch : Chapter) (s s1 : PagState)
    (hflag : cfg.firstChapterOnOddPage = true)
    (hi : 0 < i)
    (hch : book.chapters[i]? = some ch)
    (hrun : paginate cfg m gen fuel book = some t)
    (hpre : paginateChapters cfg m gen fuel (book.chapters.take i) 0
      (initState cfg) = some s)
    (hs1 : s1 = if s.pageCounter % 2 = 0 then finalizeCurrentPage cfg s else s)
    (hne : (breakLines m (calculateContentWidth cfg (currentPageSide s1))
      ch.title cfg.chapterTitleStyle (gen s1.uuidCtr)).isEmpty = false)
    (hfit : s1.currentPage.canFit
      (calculateLinesHeight m
        (breakLines m (calculateContentWidth cfg (currentPageSide s1))
          ch.title cfg.chapterTitleStyle (gen s1.uuidCtr))
        cfg.chapterTitleStyle + cfg.chapterTitleStyle.fontSize)) :
    ∃ p ∈ t.pages, p.side = PageSide.Right ∧
      ∃ f ∈ p.frames, f.frameType = FrameType.ChapterTitle ∧
        f.id = gen (s1.uuidCtr + 1) := by
  have hilen : i < book.chapters.length := (List.getElem?_eq_some.mp hch).1
  obtain ⟨hilen2, hgete⟩ := List.getElem?_eq_some.mp hch
  have hsplit : book.chapters =
      book.chapters.take i ++ (ch :: book.chapters.drop (i + 1)) := by
    have h2 : book.chapters.drop i = ch :: book.chapters.drop (i + 1) := by
      rw [List.drop_eq_getElem_cons hilen, hgete]
    calc book.chapters = book.chapters.take i ++ book.chapters.drop i :=
          (List.take_append_drop i book.chapters).symm
      _ = book.chapters.take i ++ (ch :: book.chapters.drop (i + 1)) := by
          rw [h2]
  have hlen : (book.chapters.take i).length = i := by
    rw [List.length_take]
    omega
  have hside : currentPageSide s1 = PageSide.Right := by
    rw [hs1]
    by_cases hev : s.pageCounter % 2 = 0
    · rw [if_pos hev]
      have h2 : (s.pageCounter + 1) % 2 = 1 := by omega
      unfold finalizeCurrentPage currentPageSide
      simp [h2]
    · rw [if_neg hev]
      unfold currentPageSide
      rw [if_neg hev]
  -- the title frame placed for chapter i
  set frame : TextFrame :=
    { id := gen (s1.uuidCtr + 1)
      bounds := { x := cfg.margins.inner
                  y := cfg.margins.top + s1.currentPage.currentY
                  width := calculateContentWidth cfg (currentPageSide s1)
                  height := calculateLinesHeight m
                    (breakLines m (calculateContentWidth cfg
                      (currentPageSide s1)) ch.title cfg.chapterTitleStyle
                      (gen s1.uuidCtr)) cfg.chapterTitleStyle }
      lines := breakLines m (calculateContentWidth cfg (currentPageSide s1))
        ch.title cfg.chapterTitleStyle (gen s1.uuidCtr)
      frameType := FrameType.ChapterTitle } with hframe
  have hhold : HoldsFrame frame PageSide.Right
      (addChapterTitle cfg m gen ch.title s1) := by
    unfold addChapterTitle
    simp only [freshUuid]
    split
    · rename_i hemp
      rw [hne] at hemp
      exact absurd hemp (by simp)
    · right
      constructor
      · exact List.mem_append_right _ (List.mem_singleton.mpr rfl)
      · exact hside
  -- decompose the run at chapter i
  unfold paginate at hrun
  rw [hsplit, paginateChapters_append, hpre] at hrun
  simp only [Option.some_bind] at hrun
  rw [hlen, paginateChapters] at hrun
  have hforce : (if 0 + i > 0 ∧ cfg.firstChapterOnOddPage = true ∧
      s.pageCounter % 2 = 0 then finalizeCurrentPage cfg s else s) = s1 := by
    rw [hs1]
    by_cases hev : s.pageCounter % 2 = 0
    · rw [if_pos ⟨by omega, hflag, hev⟩, if_pos hev]
    · rw [if_neg (by tauto), if_neg hev]
  rw [hforce] at hrun
  simp only [paginateChapter] at hrun
  cases hb : paginateBlocks cfg m gen fuel ch.blocks
      (addChapterTitle cfg m gen ch.title s1) with
  | none =>
    rw [hb] at hrun
    exact Option.noConfusion hrun
  | some s3 =>
    rw [hb] at hrun
    simp only [Option.some_bind] at hrun
    cases hc : paginateChapters cfg m gen fuel (book.chapters.drop (i + 1))
        (0 + i + 1) s3 with
    | none =>
      rw [hc] at hrun
      exact Option.noConfusion hrun
    | some s4 =>
      rw [hc] at hrun
      have ht := (Option.some.inj hrun).symm
      have hhold3 : HoldsFrame frame PageSide.Right s3 :=
        HoldsFrame.blocks_h cfg m gen fuel ch.blocks _ s3 hhold hb
      have hhold4 : HoldsFrame frame PageSide.Right s4 :=
        HoldsFrame.chapters_h cfg m gen fuel _ _ s3 s4 hhold3 hc
      obtain ⟨p, hp, hps, hpf⟩ := hhold4.out cfg t (by rw [ht])
      exact ⟨p, hp, hps, frame, hpf, rfl, rfl⟩

/-- Witness for C1 (amended): in `bookB` the second chapter's one-line title
fits the forced fresh Right page, and its title frame (id 2) indeed sits on
the Right page of the produced tree. -/
theorem C1_witness :
    ∃ p ∈ treeB.pages, p.side = PageSide.Right ∧
      ∃ f ∈ p.frames, f.frameType = FrameType.ChapterTitle ∧ f.id = 2 := by
  exact C1_nonfirst_title_on_right cfgA mUnit gId 9 bookB treeB 1
    (mkChapter 22 ['a', 'a'] []) stateB1 stateB2 rfl (by decide)
    (by with_unfolding_all rfl)
    (by with_unfolding_all rfl)
    (by with_unfolding_all rfl)
    (by with_unfolding_all rfl)
    (by with_unfolding_all rfl)
    (by with_unfolding_all decide)

/-! ### Erasure simulation: layout is deterministic up to the fresh uuids -/

/-- Erasure keeps the page counter. -/
theorem eraseStIds_counter (s : PagState) :
    (eraseStIds s).pageCounter = s.pageCounter := rfl

/-- Erasure keeps the uuid draw counter. -/
theorem eraseStIds_uuidCtr (s : PagState) :
    (eraseStIds s).uuidCtr = s.uuidCtr := rfl

/-- Erasure keeps the fill offset. -/
theorem eraseStIds_currentY (s : PagState) :
    (eraseStIds s).currentPage.currentY = s.currentPage.currentY := rfl

/-- Erasure keeps the page height. -/
theorem eraseStIds_maxY (s : PagState) :
    (eraseStIds s).currentPage.maxY = s.currentPage.maxY := rfl

/-- Erasure maps the current frames. -/
theorem eraseStIds_frames (s : PagState) :
    (eraseStIds s).currentPage.frames =
      s.currentPage.frames.map eraseFrameIds := rfl

/-- Erasure maps the completed pages. -/
theorem eraseStIds_completed (s : PagState) :
    (eraseStIds s).completedPages = s.completedPages.map erasePageIds := rfl

/-- Erasure commutes with a uuid bump. -/
theorem eraseStIds_bump (s : PagState) (n : Nat) :
    eraseStIds { s with uuidCtr := n } =
      { eraseStIds s with uuidCtr := n } := rfl

/-- All the component equalities packed out of an erased-state equality. -/
theorem eraseSt_components (s s' : PagState)
    (h : eraseStIds s = eraseStIds s') :
    s.pageCounter = s'.pageCounter ∧ s.uuidCtr = s'.uuidCtr ∧
    s.currentPage.currentY = s'.currentPage.currentY ∧
    s.currentPage.maxY = s'.currentPage.maxY ∧
    s.currentPage.frames.map eraseFrameIds =
      s'.currentPage.frames.map eraseFrameIds ∧
    s.completedPages.map erasePageIds = s'.completedPages.map erasePageIds := by
  exact ⟨(congrArg PagState.pageCounter h : _),
    (congrArg PagState.uuidCtr h : _),
    (congrArg (fun x : PagState => x.currentPage.currentY) h : _),
    (congrArg (fun x : PagState => x.currentPage.maxY) h : _),
    (congrArg (fun x : PagState => x.currentPage.frames) h : _),
    (congrArg PagState.completedPages h : _)⟩

/-- Erased-state equality is preserved by finalization. -/
theorem erase_finalize (cfg : LayoutConfig) (s s' : PagState)
    (h : eraseStIds s = eraseStIds s') :
    eraseStIds (finalizeCurrentPage cfg s) =
      eraseStIds (finalizeCurrentPage cfg s') := by
  obtain ⟨h1, h2, h3, h4, h5, h6⟩ := eraseSt_components s s' h
  have hpage : erasePageIds
      ({ pageNumber := s.pageCounter + 1, side := currentPageSide s,
         frames := s.currentPage.frames }) =
      erasePageIds
      ({ pageNumber := s'.pageCounter + 1, side := currentPageSide s',
         frames := s'.currentPage.frames }) := by
    unfold erasePageIds currentPageSide
    simp only [PageRender.mk.injEq]
    exact ⟨by rw [h1], by rw [h1], h5⟩
  unfold finalizeCurrentPage eraseStIds
  simp only [List.map_append, List.map_cons, List.map_nil, PagState.mk.injEq,
    PageBuilder.mk.injEq]
  refine ⟨trivial, ?_, by rw [h1], h2⟩
  rw [h6, hpage]

/-- Erased-state equality is preserved by appending erased-equal frames of
equal heights. -/
theorem erase_addFrame (s s' : PagState) (f1 f2 : TextFrame) (hgt1 hgt2 : ℚ)
    (hg : hgt1 = hgt2) (h : eraseStIds s = eraseStIds s')
    (hf : eraseFrameIds f1 = eraseFrameIds f2) :
    eraseStIds { s with currentPage := s.currentPage.addFrame f1 hgt1 } =
      eraseStIds { s' with currentPage := s'.currentPage.addFrame f2 hgt2 } := by
  obtain ⟨h1, h2, h3, h4, h5, h6⟩ := eraseSt_components s s' h
  unfold eraseStIds PageBuilder.addFrame
  simp only [List.map_append, List.map_cons, List.map_nil, PagState.mk.injEq,
    PageBuilder.mk.injEq]
  exact ⟨⟨by rw [h5, hf], by rw [h3, hg], h4⟩, h6, h1, h2⟩

/-- Placing a chapter-title frame (fresh id, erased-equal lines, equal
widths) after a uuid bump preserves erased-state equality. -/
theorem erase_addTitleFrame (cfg : LayoutConfig) (m : Metrics)
    (w1 w2 : ℚ) (hw : w1 = w2) (L1 L2 : List TextLine)
    (hL : L1.map eraseLineIds = L2.map eraseLineIds)
    (hLl : L1.length = L2.length) (u1 u2 : Uuid) (X1 X2 : PagState)
    (hX : eraseStIds X1 = eraseStIds X2) :
    eraseStIds
      { currentPage := X1.currentPage.addFrame
          { id := u1
            bounds := { x := cfg.margins.inner
                        y := cfg.margins.top + X1.currentPage.currentY
                        width := w1
                        height := calculateLinesHeight m L1
                          cfg.chapterTitleStyle }
            lines := L1
            frameType := FrameType.ChapterTitle }
          (calculateLinesHeight m L1 cfg.chapterTitleStyle +
            cfg.chapterTitleStyle.fontSize)
        completedPages := X1.completedPages
        pageCounter := X1.pageCounter
        uuidCtr := X1.uuidCtr + 1 } =
    eraseStIds
      { currentPage := X2.currentPage.addFrame
          { id := u2
            bounds := { x := cfg.margins.inner
                        y := cfg.margins.top + X2.currentPage.currentY
                        width := w2
                        height := calculateLinesHeight m L2
                          cfg.chapterTitleStyle }
            lines := L2
            frameType := FrameType.ChapterTitle }
          (calculateLinesHeight m L2 cfg.chapterTitleStyle +
            cfg.chapterTitleStyle.fontSize)
        completedPages := X2.completedPages
        pageCounter := X2.pageCounter
        uuidCtr := X2.uuidCtr + 1 } := by
  obtain ⟨h1, h2, h3, h4, h5, h6⟩ := eraseSt_components X1 X2 hX
  have hlh : calculateLinesHeight m L1 cfg.chapterTitleStyle =
      calculateLinesHeight m L2 cfg.chapterTitleStyle := by
    unfold calculateLinesHeight; rw [hLl]
  have h0 : eraseStIds { X1 with uuidCtr := X1.uuidCtr + 1 } =
      eraseStIds { X2 with uuidCtr := X2.uuidCtr + 1 } := by
    rw [eraseStIds_bump X1, eraseStIds_bump X2, hX, h2]
  have hf : eraseFrameIds
      ({ id := u1
         bounds := { x := cfg.margins.inner
                     y := cfg.margins.top + X1.currentPage.currentY
                     width := w1
                     height := calculateLinesHeight m L1
                       cfg.chapterTitleStyle }
         lines := L1
         frameType := FrameType.ChapterTitle }) =
      eraseFrameIds
      ({ id := u2
         bounds := { x := cfg.margins.inner
                     y := cfg.margins.top + X2.currentPage.currentY
                     width := w2
                     height := calculateLinesHeight m L2
                       cfg.chapterTitleStyle }
         lines := L2
         frameType := FrameType.ChapterTitle }) := by
    unfold eraseFrameIds
    dsimp only
    simp only [TextFrame.mk.injEq, Rectangle.mk.injEq]
    exact ⟨trivial, ⟨trivial, by rw [h3], hw, hlh⟩, hL, trivial⟩
  exact erase_addFrame { X1 with uuidCtr := X1.uuidCtr + 1 }
    { X2 with uuidCtr := X2.uuidCtr + 1 } _ _ _ _ (by rw [hlh]) h0 hf

/-- Erased-state equality is preserved by `addChapterTitle`, for any two
uuid streams: the drawn ids only reach erased positions. -/
theorem erase_addTitle (cfg : LayoutConfig) (m : Metrics) (g1 g2 : Nat → Uuid)
    (title : List Char) (s s' : PagState) (h : eraseStIds s = eraseStIds s') :
    eraseStIds (addChapterTitle cfg m g1 title s) =
      eraseStIds (addChapterTitle cfg m g2 title s') := by
  obtain ⟨h1, h2, h3, h4, h5, h6⟩ := eraseSt_components s s' h
  have hsd : currentPageSide s = currentPageSide s' := by
    unfold currentPageSide; rw [h1]
  have hle : (breakLines m (calculateContentWidth cfg (currentPageSide s))
        title cfg.chapterTitleStyle (g1 s.uuidCtr)).map eraseLineIds =
      (breakLines m (calculateContentWidth cfg (currentPageSide s'))
        title cfg.chapterTitleStyle (g2 s'.uuidCtr)).map eraseLineIds := by
    rw [← hsd]
    exact breakLines_erase m _ title cfg.chapterTitleStyle _ _
  have hlen : (breakLines m (calculateContentWidth cfg (currentPageSide s))
        title cfg.chapterTitleStyle (g1 s.uuidCtr)).length =
      (breakLines m (calculateContentWidth cfg (currentPageSide s'))
        title cfg.chapterTitleStyle (g2 s'.uuidCtr)).length := by
    have h7 := congrArg List.length hle
    simpa using h7
  have hbump : eraseStIds { s with uuidCtr := s.uuidCtr + 1 } =
      eraseStIds { s' with uuidCtr := s'.uuidCtr + 1 } := by
    rw [eraseStIds_bump s, eraseStIds_bump s', h, h2]
  unfold addChapterTitle
  simp only [freshUuid]
  split
  · rename_i he1
    have he2 : (breakLines m (calculateContentWidth cfg (currentPageSide s'))
        title cfg.chapterTitleStyle (g2 s'.uuidCtr)).isEmpty = true := by
      rw [List.isEmpty_iff_length_eq_zero] at he1 ⊢
      rw [← hlen]; exact he1
    rw [if_pos he2, eraseStIds_bump s, eraseStIds_bump s', h, h2]
  · rename_i he1
    have he2 : ¬ ((breakLines m
        (calculateContentWidth cfg (currentPageSide s'))
        title cfg.chapterTitleStyle (g2 s'.uuidCtr)).isEmpty = true) := by
      intro hc
      apply he1
      rw [List.isEmpty_iff_length_eq_zero] at hc ⊢
      rw [hlen]; exact hc
    rw [if_neg he2]
    have hiff : (s.currentPage.canFit
        (calculateLinesHeight m
          (breakLines m (calculateContentWidth cfg (currentPageSide s))
            title cfg.chapterTitleStyle (g1 s.uuidCtr))
          cfg.chapterTitleStyle + cfg.chapterTitleStyle.fontSize)) ↔
        (s'.currentPage.canFit
        (calculateLinesHeight m
          (breakLines m (calculateContentWidth cfg (currentPageSide s'))
            title cfg.chapterTitleStyle (g2 s'.uuidCtr))
          cfg.chapterTitleStyle + cfg.chapterTitleStyle.fontSize)) := by
      unfold PageBuilder.canFit PageBuilder.availableHeight
        calculateLinesHeight
      rw [h3, h4, hlen]
    have hX : eraseStIds
        (if s.currentPage.canFit
          (calculateLinesHeight m
            (breakLines m (calculateContentWidth cfg (currentPageSide s))
              title cfg.chapterTitleStyle (g1 s.uuidCtr))
            cfg.chapterTitleStyle + cfg.chapterTitleStyle.fontSize)
         then { s with uuidCtr := s.uuidCtr + 1 }
         else finalizeCurrentPage cfg { s with uuidCtr := s.uuidCtr + 1 }) =
        eraseStIds
        (if s'.currentPage.canFit
          (calculateLinesHeight m
            (breakLines m (calculateContentWidth cfg (currentPageSide s'))
              title cfg.chapterTitleStyle (g2 s'.uuidCtr))
            cfg.chapterTitleStyle + cfg.chapterTitleStyle.fontSize)
         then { s' with uuidCtr := s'.uuidCtr + 1 }
         else finalizeCurrentPage cfg { s' with uuidCtr := s'.uuidCtr + 1 }) := by
      by_cases hc : s.currentPage.canFit
          (calculateLinesHeight m
            (breakLines m (calculateContentWidth cfg (currentPageSide s))
              title cfg.chapterTitleStyle (g1 s.uuidCtr))
            cfg.chapterTitleStyle + cfg.chapterTitleStyle.fontSize)
      · rw [if_pos hc, if_pos (hiff.mp hc)]
        exact hbump
      · rw [if_neg hc, if_neg (fun hx => hc (hiff.mpr hx))]
        exact erase_finalize cfg _ _ hbump
    exact erase_addTitleFrame cfg m _ _ (by rw [hsd]) _ _ hle hlen _ _ _ _ hX

/-- Erased-state equality is preserved by `addLinesToPages`, for any two
uuid streams: the loop's control flow reads only erased-invariant data. -/
theorem erase_addLines (cfg : LayoutConfig) (m : Metrics) (g1 g2 : Nat → Uuid) :
    ∀ (fuel : Nat), ∀ (lines : List TextLine) (s s' : PagState),
    eraseStIds s = eraseStIds s' →
    (addLinesToPages cfg m g1 fuel lines s).map eraseStIds =
      (addLinesToPages cfg m g2 fuel lines s').map eraseStIds := by
  intro fuel
  induction fuel with
  | zero =>
    intro lines s s' h
    cases lines with
    | nil =>
      exact congrArg some h
    | cons l rest => rfl
  | succ fuel ih =>
    intro lines s s' h
    cases lines with
    | nil =>
      exact congrArg some h
    | cons l rest =>
      obtain ⟨h1, h2, h3, h4, h5, h6⟩ := eraseSt_components s s' h
      have havail : s.currentPage.availableHeight =
          s'.currentPage.availableHeight := by
        unfold PageBuilder.availableHeight; rw [h3, h4]
      have hsd : currentPageSide s = currentPageSide s' := by
        unfold currentPageSide; rw [h1]
      have hbump : eraseStIds { s with uuidCtr := s.uuidCtr + 1 } =
          eraseStIds { s' with uuidCtr := s'.uuidCtr + 1 } := by
        rw [eraseStIds_bump s, eraseStIds_bump s', h, h2]
      rw [addLinesToPages, addLinesToPages]
      simp only [freshUuid]
      rw [havail, hsd, h3]
      split
      · exact ih _ _ _ (erase_finalize cfg s s' h)
      · apply ih
        split
        · exact erase_addFrame { s with uuidCtr := s.uuidCtr + 1 }
            { s' with uuidCtr := s'.uuidCtr + 1 } _ _ _ _ rfl hbump rfl
        · apply erase_finalize
          exact erase_addFrame { s with uuidCtr := s.uuidCtr + 1 }
            { s' with uuidCtr := s'.uuidCtr + 1 } _ _ _ _ rfl hbump rfl

/-- Lift erased-equality through `Option.bind`: aligned success/failure and
an erased-respecting continuation. -/
theorem erase_bind (x1 x2 : Option PagState) (f1 f2 : PagState → Option PagState)
    (hx : x1.map eraseStIds = x2.map eraseStIds)
    (hf : ∀ t1 t2, eraseStIds t1 = eraseStIds t2 →
      (f1 t1).map eraseStIds = (f2 t2).map eraseStIds) :
    (x1.bind f1).map eraseStIds = (x2.bind f2).map eraseStIds := by
  cases x1 with
  | none =>
    cases x2 with
    | none => rfl
    | some t2 => exact absurd hx (by simp)
  | some t1 =>
    cases x2 with
    | none => exact absurd hx (by simp)
    | some t2 => exact hf t1 t2 (Option.some.inj hx)

/-- Erased-state equality is preserved by `paginateBlock` for any two uuid
streams. -/
theorem erase_block (cfg : LayoutConfig) (m : Metrics) (g1 g2 : Nat → Uuid)
    (fuel : Nat) (b : Block) (s s' : PagState)
    (h : eraseStIds s = eraseStIds s') :
    (paginateBlock cfg m g1 fuel b s).map eraseStIds =
      (paginateBlock cfg m g2 fuel b s').map eraseStIds := by
  have h1 : s.pageCounter = s'.pageCounter :=
    (eraseSt_components s s' h).1
  have hsd : currentPageSide s = currentPageSide s' := by
    unfold currentPageSide; rw [h1]
  unfold paginateBlock
  dsimp only
  rw [hsd]
  split
  · exact congrArg some h
  · exact erase_addLines cfg m g1 g2 fuel _ s s' h

/-- Erased-state equality is preserved by the block loop for any two uuid
streams. -/
theorem erase_blocks (cfg : LayoutConfig) (m : Metrics) (g1 g2 : Nat → Uuid)
    (fuel : Nat) : ∀ (bs : List Block) (s s' : PagState),
    eraseStIds s = eraseStIds s' →
    (paginateBlocks cfg m g1 fuel bs s).map eraseStIds =
      (paginateBlocks cfg m g2 fuel bs s').map eraseStIds := by
  intro bs
  induction bs with
  | nil => intro s s' h; exact congrArg some h
  | cons b bs ih =>
    intro s s' h
    rw [paginateBlocks, paginateBlocks]
    exact erase_bind _ _ _ _ (erase_block cfg m g1 g2 fuel b s s' h)
      (fun t1 t2 ht => ih t1 t2 ht)

/-- Erased-state equality is preserved by the chapter loop for any two uuid
streams. -/
theorem erase_chapters (cfg : LayoutConfig) (m : Metrics) (g1 g2 : Nat → Uuid)
    (fuel : Nat) : ∀ (chs : List Chapter) (idx : Nat) (s s' : PagState),
    eraseStIds s = eraseStIds s' →
    (paginateChapters cfg m g1 fuel chs idx s).map eraseStIds =
      (paginateChapters cfg m g2 fuel chs idx s').map eraseStIds := by
  intro chs
  induction chs with
  | nil => intro idx s s' h; exact congrArg some h
  | cons ch chs ih =>
    intro idx s s' h
    have h1 : s.pageCounter = s'.pageCounter := (eraseSt_components s s' h).1
    rw [paginateChapters, paginateChapters]
    have hstep : eraseStIds
        (if idx > 0 ∧ cfg.firstChapterOnOddPage = true ∧
            s.pageCounter % 2 = 0
         then finalizeCurrentPage cfg s else s) =
        eraseStIds
        (if idx > 0 ∧ cfg.firstChapterOnOddPage = true ∧
            s'.pageCounter % 2 = 0
         then finalizeCurrentPage cfg s' else s') := by
      by_cases hc : idx > 0 ∧ cfg.firstChapterOnOddPage = true ∧
          s.pageCounter % 2 = 0
      · rw [if_pos hc, if_pos (by rw [← h1]; exact hc)]
        exact erase_finalize cfg s s' h
      · rw [if_neg hc, if_neg (by rw [← h1]; exact hc)]
        exact h
    refine erase_bind _ _ _ _ ?_ (fun t1 t2 ht => ih (idx + 1) t1 t2 ht)
    unfold paginateChapter
    exact erase_blocks cfg m g1 g2 fuel ch.blocks _ _
      (erase_addTitle cfg m g1 g2 ch.title _ _ hstep)

/-- Claim C2 (amended): layout is deterministic up to the freshly drawn
uuids. Two runs of `paginate` on the same config, metrics, fuel and book,
differing only in the `Uuid::new_v4` stream, yield the same outcome
(success or not) and, on success, render trees that agree exactly after
erasing the frame ids and the chapter-title fragments' synthetic source
ids; all other bytes (geometry, text, page numbers, sides, metadata) are
identical. The unamended claim - byte-identical output - is refuted by
`C2_counterexample`. -/
theorem C2_deterministic_up_to_ids (cfg : LayoutConfig) (m : Metrics)
    (g1 g2 : Nat → Uuid) (fuel : Nat) (book : Book) :
    (paginate cfg m g1 fuel book).map eraseTreeIds =
      (paginate cfg m g2 fuel book).map eraseTreeIds := by
  unfold paginate
  have hch := erase_chapters cfg m g1 g2 fuel book.chapters 0
    (initState cfg) (initState cfg) rfl
  have main : ∀ S1 S2 : PagState, eraseStIds S1 = eraseStIds S2 →
      eraseTreeIds
        { bookId := book.id
          pages := S1.completedPages
          metadata := { totalPages := S1.completedPages.length
                        totalChapters := book.chapters.length } } =
      eraseTreeIds
        { bookId := book.id
          pages := S2.completedPages
          metadata := { totalPages := S2.completedPages.length
                        totalChapters := book.chapters.length } } := by
    intro S1 S2 hS
    have h6 := (eraseSt_components S1 S2 hS).2.2.2.2.2
    have hlen : S1.completedPages.length = S2.completedPages.length := by
      have h7 := congrArg List.length h6; simpa using h7
    unfold eraseTreeIds
    simp only [RenderTree.mk.injEq, RenderMetadata.mk.injEq]
    exact ⟨trivial, h6, hlen, trivial⟩
  cases hx1 : paginateChapters cfg m g1 fuel book.chapters 0 (initState cfg) with
  | none =>
    cases hx2 : paginateChapters cfg m g2 fuel book.chapters 0 (initState cfg) with
    | none => rfl
    | some t2 => rw [hx1, hx2] at hch; exact absurd hch (by simp)
  | some t1 =>
    cases hx2 : paginateChapters cfg m g2 fuel book.chapters 0 (initState cfg) with
    | none => rw [hx1, hx2] at hch; exact absurd hch (by simp)
    | some t2 =>
      rw [hx1, hx2] at hch
      have ht : eraseStIds t1 = eraseStIds t2 := Option.some.inj hch
      refine congrArg some ?_
      dsimp only
      have h5 := (eraseSt_components t1 t2 ht).2.2.2.2.1
      have hflen : t1.currentPage.frames.length =
          t2.currentPage.frames.length := by
        have h7 := congrArg List.length h5; simpa using h7
      refine main _ _ ?_
      by_cases hb : t1.currentPage.frames.isEmpty = true
      · have hb2 : t2.currentPage.frames.isEmpty = true := by
          rw [List.isEmpty_iff_length_eq_zero] at hb ⊢
          rw [← hflen]; exact hb
        rw [if_pos hb, if_pos hb2]; exact ht
      · have hb2 : ¬(t2.currentPage.frames.isEmpty = true) := by
          intro hx; apply hb
          rw [List.isEmpty_iff_length_eq_zero] at hx ⊢
          rw [hflen]; exact hx
        rw [if_neg hb, if_neg hb2]
        exact erase_finalize cfg t1 t2 ht

end BookWriter
